import Mathlib

/-!
Verification of the `request_parser` HTTP request parsing library.

This development shallowly embeds the core of the library
(`request_parser/http/request.py` and `utils/datastructures.py`) in Lean:

* byte strings are modelled as `List Nat` (each element a byte value);
* Python exceptions are modelled with `Except PyErr`;
* `dict`s of lists are modelled as association lists with unique keys
  (`MultiValueDict`), preserving insertion order;
* fallible operations return `Except PyErr` values instead of mutating.

Functions keep the names of the Python functions they embed.  Two helper
functions of the repository (`limited_parse_qsl` and `_urlparse`, both in
`request_parser/utils/http.py`) are not part of the audited sources; they
are modelled from the specification and marked as such in their doc
comments.
-/

set_option maxRecDepth 10000

/-- Python exception kinds raised by the embedded code.  `invalidHttpRequest`
carries the message and the optional numeric code of
`InvalidHttpRequest(message, code)`. -/
inductive PyErr where
  /-- `ValueError` (e.g. tuple-unpacking failure). -/
  | valueError : PyErr
  /-- `KeyError` raised by plain `dict` operations. -/
  | keyError : PyErr
  /-- `MultiValueDictKeyError` (a `KeyError` subclass) from strict lookup. -/
  | multiValueDictKeyError : PyErr
  /-- `AttributeError`, carrying a hint at the message/attribute. -/
  | attributeError (msg : String) : PyErr
  /-- `InvalidHttpRequest(message, code, params)`. -/
  | invalidHttpRequest (msg : String) (code : Option Nat) : PyErr
  /-- `NoHostFoundException`. -/
  | noHostFoundException : PyErr
  /-- `RawPostDataException`. -/
  | rawPostDataException : PyErr
  /-- `RequestDataTooBig`. -/
  | requestDataTooBig : PyErr
  /-- `TooManyFieldsSent` raised by `limited_parse_qsl`. -/
  | tooManyFieldsSent : PyErr
  /-- `UnicodeDecodeError` (the implicit ASCII decode in `str.encode`). -/
  | unicodeDecodeError : PyErr
deriving DecidableEq, Repr

/-- ASCII bytes of a Lean string literal; only used to write concrete
inputs and expected outputs readably. -/
def bytesOf (s : String) : List Nat :=
  s.data.map Char.toNat

/-- Index of the first occurrence of `pat` as a contiguous sublist of `l`
(Python `bytes.find(pat)`, `none` for `-1`). -/
def findSub (pat : List Nat) : List Nat → Option Nat
  | [] => if pat = [] then some 0 else none
  | a :: rest =>
      if pat.isPrefixOf (a :: rest) then some 0
      else (findSub pat rest).map (· + 1)

/-- Python `s.find(pat, start)`: first occurrence of `pat` at index
`≥ start`, `none` for `-1`. -/
def findSubFrom (pat : List Nat) (l : List Nat) (start : Nat) : Option Nat :=
  (findSub pat (l.drop start)).map (· + start)

/-- Split `l` at the first occurrence of the byte `sep`
(`s.split(sep, 1)`); `none` when `sep` does not occur. -/
def splitOnFirst (sep : Nat) : List Nat → Option (List Nat × List Nat)
  | [] => none
  | a :: rest =>
      if a = sep then some ([], rest)
      else (splitOnFirst sep rest).map (fun p => (a :: p.1, p.2))

/-- Python `s.split(sep)` for a one-byte separator: split on every
occurrence, keeping empty pieces. -/
def splitSep (sep : Nat) : List Nat → List (List Nat)
  | [] => [[]]
  | a :: rest =>
      if a = sep then [] :: splitSep sep rest
      else
        match splitSep sep rest with
        | [] => [[a]]
        | piece :: pieces => (a :: piece) :: pieces

/-- Python `s.split(sep, maxsplit)` for a one-byte separator: split at the
first `maxsplit` occurrences, the remainder staying in the last piece. -/
def pySplitMax (sep : Nat) : Nat → List Nat → List (List Nat)
  | 0, l => [l]
  | n + 1, l =>
      match splitOnFirst sep l with
      | none => [l]
      | some (a, b) => a :: pySplitMax sep n b

/-- Python tuple unpacking `x, y, z = l`: raises `ValueError` unless `l`
has exactly three elements. -/
def unpack3 (l : List α) : Except PyErr (α × α × α) :=
  match l with
  | [a, b, c] => .ok (a, b, c)
  | _ => .error .valueError

/-- Whitespace bytes stripped by Python `bytes.strip()`. -/
def isPySpace (b : Nat) : Bool :=
  b = 32 || b = 9 || b = 10 || b = 13 || b = 11 || b = 12

/-- Python `bytes.strip()`. -/
def pyStrip (l : List Nat) : List Nat :=
  (l.dropWhile isPySpace).reverse.dropWhile isPySpace |>.reverse

/-- Python `bytes.lower()`: lowercase ASCII letters, leave the rest. -/
def pyLower (l : List Nat) : List Nat :=
  l.map fun b => if 65 ≤ b ∧ b ≤ 90 then b + 32 else b

/-- The `str.encode('ascii', '')` calls of `parse_request_headers`: on a
byte string they implicitly decode as ASCII first, so any byte `≥ 0x80`
raises a `UnicodeDecodeError`; ASCII-clean input passes unchanged. -/
def encodeAscii (l : List Nat) : Except PyErr (List Nat) :=
  if l.all (· < 128) then .ok l else .error .unicodeDecodeError

/-- Embedding of `utils/datastructures.py`'s `MultiValueDict`, a `dict`
subclass whose values are lists.  The backing `dict` is modelled as an
association list with (invariantly) unique keys; the model fixes the
iteration order to insertion order, which is all the verified claims
depend on (they are insensitive to key order). -/
structure MultiValueDict (K V : Type) where
  entries : List (K × List V)
deriving DecidableEq

namespace MultiValueDict

variable {K V : Type} [DecidableEq K]

/-- `MultiValueDict()` — the empty dictionary. -/
def empty : MultiValueDict K V := ⟨[]⟩

/-- Python `key in d` (plain `dict.__contains__`). -/
def contains (d : MultiValueDict K V) (k : K) : Bool :=
  d.entries.any fun e => decide (e.1 = k)

/-- Plain `dict.__getitem__` on the backing dict: the full value list, or
`none` for a `KeyError`. -/
def superGet (d : MultiValueDict K V) (k : K) : Option (List V) :=
  (d.entries.find? fun e => decide (e.1 = k)).map Prod.snd

/-- Plain `dict.__setitem__` on the backing dict: replace the first entry
with this key in place, or append a new entry at the end. -/
def setEntry : List (K × List V) → K → List V → List (K × List V)
  | [], k, l => [(k, l)]
  | e :: es, k, l => if e.1 = k then (k, l) :: es else e :: setEntry es k l

/-- `dict.__setitem__(key, list_)` wrapped at the structure level. -/
def superSet (d : MultiValueDict K V) (k : K) (l : List V) : MultiValueDict K V :=
  ⟨setEntry d.entries k l⟩

/-- `MultiValueDict.__getitem__`: the last value for the key, the `[]`
sentinel (modelled `none`) when the stored list is empty, and
`MultiValueDictKeyError` when the key is absent. -/
def getitem (d : MultiValueDict K V) (k : K) : Except PyErr (Option V) :=
  match d.superGet k with
  | none => .error .multiValueDictKeyError
  | some l => .ok l.getLast?

/-- `MultiValueDict.get(key, default)`: last value for the key; the
default when the key is absent (the `KeyError` is caught) or when the
stored list is empty (the `val == []` check). -/
def get (d : MultiValueDict K V) (k : K) (default : Option V) : Option V :=
  match d.superGet k with
  | none => default
  | some l =>
      match l.getLast? with
      | none => default
      | some v => some v

/-- `MultiValueDict._getlist(key, default)`: the stored list; when the key
is absent, `[]` for a `None` default and the default otherwise. -/
def _getlist (d : MultiValueDict K V) (k : K) (default : Option (List V)) : List V :=
  match d.superGet k with
  | none => default.getD []
  | some l => l

/-- `MultiValueDict.getlist(key, default)` — `_getlist` with
`force_list=True`; copying the list is the identity in a pure model. -/
def getlist (d : MultiValueDict K V) (k : K) (default : Option (List V)) : List V :=
  d._getlist k default

/-- `MultiValueDict.setlist(key, potential_list)`.  The Python function
dispatches on the argument's runtime type; in the typed embedding the
argument is always a list (the `None` and single-value branches are not
reachable from the embedded call sites), so this is the
`list(potential_list)` branch followed by `dict.__setitem__`. -/
def setlist (d : MultiValueDict K V) (k : K) (l : List V) : MultiValueDict K V :=
  d.superSet k l

/-- `self.setlistdefault(key).append(value)` as performed by
`MultiValueDict.appendlist`: `setlistdefault` inserts `(key, [])` at the
end when the key is absent and returns the internal list, and the
`.append` mutates that aliased list, so the net effect is to append to
the first entry with this key, or to create `(key, [value])` at the end. -/
def appendEntry : List (K × List V) → K → V → List (K × List V)
  | [], k, v => [(k, [v])]
  | e :: es, k, v => if e.1 = k then (e.1, e.2 ++ [v]) :: es else e :: appendEntry es k v

/-- `MultiValueDict.appendlist(key, value)`. -/
def appendlist (d : MultiValueDict K V) (k : K) (v : V) : MultiValueDict K V :=
  ⟨appendEntry d.entries k v⟩

/-- `MultiValueDict.setlistdefault(key, default_list)`: when the key is
absent, store `default_list` (`[]` for `None`); return the stored list
and the updated dictionary. -/
def setlistdefault (d : MultiValueDict K V) (k : K) (default_list : Option (List V)) :
    List V × MultiValueDict K V :=
  if d.contains k then (d._getlist k none, d)
  else
    let d2 := d.setlist k (default_list.getD [])
    (d2._getlist k none, d2)

/-- `MultiValueDict.setdefault(key, default)`: when the key is absent,
`self[key] = default` (which stores the one-element list `[default]`);
return `self[key]`.  The embedded call sites always pass a value, so the
`None` default is modelled by the caller choosing `default`. -/
def setdefault (d : MultiValueDict K V) (k : K) (default : V) :
    Option V × MultiValueDict K V :=
  if d.contains k then
    (match d.getitem k with | .ok v => v | .error _ => none, d)
  else
    let d2 := d.superSet k [default]
    (match d2.getitem k with | .ok v => v | .error _ => none, d2)

/-- `dict.__delitem__` (reached through `QueryDict.__delitem__`): remove
the key, `KeyError` when absent. -/
def delitem (d : MultiValueDict K V) (k : K) : Except PyErr (MultiValueDict K V) :=
  if d.contains k then .ok ⟨d.entries.filter fun e => !decide (e.1 = k)⟩
  else .error .keyError

/-- `dict.pop(key)` (no default): the removed list, `KeyError` when
absent. -/
def pop (d : MultiValueDict K V) (k : K) :
    Except PyErr (List V × MultiValueDict K V) :=
  match d.superGet k with
  | none => .error .keyError
  | some l => .ok (l, ⟨d.entries.filter fun e => !decide (e.1 = k)⟩)

/-- `dict.popitem()`: remove and return an entry (the model takes the
first; CPython 2's choice is unspecified), `KeyError` when empty. -/
def popitem (d : MultiValueDict K V) :
    Except PyErr ((K × List V) × MultiValueDict K V) :=
  match d.entries with
  | [] => .error .keyError
  | e :: es => .ok (e, ⟨es⟩)

/-- `dict.clear()`. -/
def clear (_d : MultiValueDict K V) : MultiValueDict K V := ⟨[]⟩

/-- `MultiValueDict.lists()`: the `(key, list)` pairs. -/
def lists (d : MultiValueDict K V) : List (K × List V) := d.entries

end MultiValueDict

/-- `bytes_to_text(s, encoding)` of `request.py`: bytes are decoded to
text with the given encoding (malformed sequences replaced by U+FFFD),
non-bytes input passes through unchanged.  The embedding does not
distinguish byte strings from text strings — both are byte lists — so
both branches are the identity transport; the `encoding` argument is
dropped. -/
def bytes_to_text (s : List Nat) : List Nat := s

/-- Embedding of `request.py`'s `QueryDict`, a `MultiValueDict` of byte
strings plus the `_mutable` flag.  The `encoding` attribute is not
modelled (see `bytes_to_text`). -/
structure QueryDict where
  mvd : MultiValueDict (List Nat) (List Nat)
  _mutable : Bool
deriving DecidableEq

namespace QueryDict

/-- `QueryDict._assert_mutable`: raise
`AttributeError("This QueryDict instance is immutable")` when the
`_mutable` flag is unset. -/
def _assert_mutable (q : QueryDict) : Except PyErr Unit :=
  if q._mutable then .ok ()
  else .error (.attributeError "This QueryDict instance is immutable")

/-- `QueryDict.__setitem__(key, value)`. -/
def setitem (q : QueryDict) (k v : List Nat) : Except PyErr QueryDict := do
  q._assert_mutable
  .ok ⟨q.mvd.superSet (bytes_to_text k) [bytes_to_text v], q._mutable⟩

/-- `QueryDict.__delitem__(key)`. -/
def delitem (q : QueryDict) (k : List Nat) : Except PyErr QueryDict := do
  q._assert_mutable
  let m ← q.mvd.delitem k
  .ok ⟨m, q._mutable⟩

/-- `QueryDict.setlist(key, list_)`. -/
def setlist (q : QueryDict) (k : List Nat) (l : List (List Nat)) :
    Except PyErr QueryDict := do
  q._assert_mutable
  .ok ⟨q.mvd.setlist (bytes_to_text k) (l.map bytes_to_text), q._mutable⟩

/-- `QueryDict.setlistdefault(key, default_list)`. -/
def setlistdefault (q : QueryDict) (k : List Nat)
    (default_list : Option (List (List Nat))) :
    Except PyErr (List (List Nat) × QueryDict) := do
  q._assert_mutable
  let (l, m) := q.mvd.setlistdefault k default_list
  .ok (l, ⟨m, q._mutable⟩)

/-- `QueryDict.appendlist(key, value)`. -/
def appendlist (q : QueryDict) (k v : List Nat) : Except PyErr QueryDict := do
  q._assert_mutable
  .ok ⟨q.mvd.appendlist (bytes_to_text k) (bytes_to_text v), q._mutable⟩

/-- `QueryDict.pop(key)`. -/
def pop (q : QueryDict) (k : List Nat) :
    Except PyErr (List (List Nat) × QueryDict) := do
  q._assert_mutable
  let (l, m) ← q.mvd.pop k
  .ok (l, ⟨m, q._mutable⟩)

/-- `QueryDict.popitem()`. -/
def popitem (q : QueryDict) :
    Except PyErr ((List Nat × List (List Nat)) × QueryDict) := do
  q._assert_mutable
  let (e, m) ← q.mvd.popitem
  .ok (e, ⟨m, q._mutable⟩)

/-- `QueryDict.clear()`. -/
def clear (q : QueryDict) : Except PyErr QueryDict := do
  q._assert_mutable
  .ok ⟨q.mvd.clear, q._mutable⟩

/-- `QueryDict.setdefault(key, default)`. -/
def setdefault (q : QueryDict) (k default : List Nat) :
    Except PyErr (Option (List Nat) × QueryDict) := do
  q._assert_mutable
  let (v, m) := q.mvd.setdefault (bytes_to_text k) (bytes_to_text default)
  .ok (v, ⟨m, q._mutable⟩)

end QueryDict

/-- One byte of Python `bytes.lower()`. -/
def pyLowerByte (b : Nat) : Nat :=
  if 65 ≤ b ∧ b ≤ 90 then b + 32 else b

/-- `[a-z0-9.-]` of `host_validation_re`. -/
def isHostChar (b : Nat) : Bool :=
  (97 ≤ b && b ≤ 122) || (48 ≤ b && b ≤ 57) || b = 46 || b = 45

/-- `[a-f0-9]` of `host_validation_re`. -/
def isHexLower (b : Nat) : Bool :=
  (97 ≤ b && b ≤ 102) || (48 ≤ b && b ≤ 57)

/-- `[a-f0-9.:]` of `host_validation_re`. -/
def isHexDotColon (b : Nat) : Bool :=
  isHexLower b || b = 46 || b = 58

/-- `\d` of `host_validation_re`. -/
def isDigitByte (b : Nat) : Bool :=
  48 ≤ b && b ≤ 57

/-- The first alternative `[a-z0-9.-]+` of `host_validation_re`. -/
def matchesAlt1 (l : List Nat) : Bool :=
  !l.isEmpty && l.all isHostChar

/-- `[a-f0-9]*:[a-f0-9.:]+`, the inside of the bracketed alternative:
membership is an existential over the split position at the first
mandatory colon. -/
def matchesIPv6Inner (l : List Nat) : Bool :=
  (List.range (l.length + 1)).any fun i =>
    (l.take i).all isHexLower &&
      (match l.drop i with
       | 58 :: rest => !rest.isEmpty && rest.all isHexDotColon
       | _ => false)

/-- The second alternative `\[[a-f0-9]*:[a-f0-9\.:]+\]` of
`host_validation_re`. -/
def matchesAlt2 (l : List Nat) : Bool :=
  match l with
  | 91 :: rest => rest.getLast? = some 93 && matchesIPv6Inner rest.dropLast
  | _ => false

/-- The optional `(:\d+)?` suffix of `host_validation_re`. -/
def portOptMatches (l : List Nat) : Bool :=
  l.isEmpty ||
    (match l with
     | 58 :: rest => !rest.isEmpty && rest.all isDigitByte
     | _ => false)

/-- `host_validation_re` matched against the whole string (the pattern is
anchored by `^...$`): some split of the input into a host part matching
one of the two alternatives and an optional `:digits` suffix. -/
def hostValidationCore (l : List Nat) : Bool :=
  (List.range (l.length + 1)).any fun i =>
    (matchesAlt1 (l.take i) || matchesAlt2 (l.take i)) && portOptMatches (l.drop i)

/-- `host_validation_re.match(host)` as a Boolean: Python's `$` also
matches just before one trailing newline, so that case is accepted as
well (no claim exercises it, but the embedding keeps `re` semantics). -/
def hostValidationMatches (l : List Nat) : Bool :=
  hostValidationCore l ||
    (l.getLast? = some 10 && hostValidationCore l.dropLast)

/-- Python `host.rsplit(sep, 1)` for a one-byte separator: split at the
last occurrence, `none` when the separator does not occur (the
`len(bits) == 2` test distinguishes the cases). -/
def rsplitLast (sep : Nat) (l : List Nat) : Option (List Nat × List Nat) :=
  (splitOnFirst sep l.reverse).map fun p => (p.2.reverse, p.1.reverse)

/-- `split_domain_port(host)` of `request.py`: lowercase, validate
against `host_validation_re` (empty pair when invalid), return a
bracketed IPv6 literal whole with empty port, otherwise split at the
last colon and strip one trailing dot from the domain. -/
def split_domain_port (host : List Nat) : List Nat × List Nat :=
  let host := pyLower host
  if !hostValidationMatches host then ([], [])
  else if host.getLast? = some 93 then (host, [])
  else
    let (domain, port) :=
      match rsplitLast 58 host with
      | some (d, p) => (d, p)
      | none => (host, [])
    let domain := if domain.getLast? = some 46 then domain.dropLast else domain
    (domain, port)

/-- The port value held by `HttpRequest.port`: either the string from
`split_domain_port` or an integer assigned by the default-port policy. -/
inductive PortVal where
  | str (s : List Nat) : PortVal
  | num (n : Nat) : PortVal
deriving DecidableEq

/-- The caller's default-port policy, `request.py` lines 266–274: when
the port string is empty, `https → 443`, `http → 80`, any other scheme →
the invalid-port sentinel `65536`; a non-empty port string is kept as
is. -/
def resolve_port (scheme : List Nat) (port : List Nat) : PortVal :=
  if port = [] then
    if pyLower scheme = bytesOf "https" then .num 443
    else if pyLower scheme = bytesOf "http" then .num 80
    else .num 65536
  else .str port

instance {ε α : Type} [DecidableEq ε] [DecidableEq α] : DecidableEq (Except ε α) :=
  fun x y =>
    match x, y with
    | .ok a, .ok b =>
        if h : a = b then .isTrue (by rw [h])
        else .isFalse fun hh => h (Except.ok.inj hh)
    | .error a, .error b =>
        if h : a = b then .isTrue (by rw [h])
        else .isFalse fun hh => h (Except.error.inj hh)
    | .ok _, .error _ => .isFalse fun hh => Except.noConfusion hh
    | .error _, .ok _ => .isFalse fun hh => Except.noConfusion hh

/-- The bytes `b"\r\n"`. -/
def crlf : List Nat := [13, 10]

/-- The bytes `b"\r\n\r\n"` — the header/body boundary. -/
def crlfcrlf : List Nat := [13, 10, 13, 10]

/-- Result of the header-boundary scanning loop of
`HttpRequest.parse_request_header` (lines 218–227): either the source was
exhausted (a read returned the empty string) with the bytes accumulated
so far, or the boundary was found at index `i` of the last chunk read,
with `acc` the accumulated header bytes (previous chunks plus
`chunk[:i]`), `chunk` the last chunk and `rest` the bytes of the source
never read. -/
inductive ScanResult where
  | exhausted (acc : List Nat) : ScanResult
  | found (acc : List Nat) (i : Nat) (chunk rest : List Nat) : ScanResult
deriving DecidableEq

/-- The `while request_header_end == -1` loop of
`HttpRequest.parse_request_header`: read chunks of at most `max`
(`settings.MAX_HEADER_SIZE`) bytes from the `LazyStream` and accumulate
them until a chunk contains `b"\r\n\r\n"` or a read returns nothing.
The `LazyStream` over the request stream is modelled by the list of
bytes not yet read; `read(max)` takes at most `max` bytes from it. -/
def scanHeader (max : Nat) (stream acc : List Nat) : ScanResult :=
  if hc : stream.take max = [] then .exhausted acc
  else
    match findSub crlfcrlf (stream.take max) with
    | some i => .found (acc ++ (stream.take max).take i) i (stream.take max) (stream.drop max)
    | none => scanHeader max (stream.drop max) (acc ++ stream.take max)
termination_by stream.length
decreasing_by
  have hs : stream ≠ [] := fun h => hc (by simp [h])
  have hm : max ≠ 0 := fun h => hc (by simp [h])
  simp only [List.length_drop]
  exact Nat.sub_lt (List.length_pos.mpr hs) (Nat.pos_of_ne_zero hm)

/-- Lines 213–238 of `HttpRequest.parse_request_header`: frame the header
out of the request stream.  On success, return the header blob (the
accumulated bytes before the boundary, with the synthetic trailing
`b"\r\n"` appended by line 228) and the state of the source after
`unget(chunk[request_header_end:])` — the bytes of the last chunk that
followed the boundary, followed by the bytes never read.  If the source
is exhausted first, raise `InvalidHttpRequest("Invalid HTTP request.",
400, '')`. -/
def frameHeader (max : Nat) (stream : List Nat) :
    Except PyErr (List Nat × List Nat) :=
  match scanHeader max stream [] with
  | .exhausted _ => .error (.invalidHttpRequest "Invalid HTTP request." (some 400))
  | .found acc i chunk rest => .ok (acc ++ crlf, chunk.drop (i + 4) ++ rest)

/-- The header-line loop of `parse_request_headers` (lines 598–621): while
another `b"\r\n"` is found from index 1, split the line at its first
colon into name and value, `strip()` the value, pass both through
`str.encode('ascii', '')`, and append the value to the name's list.  A
line without a colon raises — in the Python, `InvalidHttpRequest(...
.format(header))` with the *previous* line's name, which is unbound (a
`NameError`) when no previous line exists; the embedding reproduces that
distinction. -/
def headerLines (stream : List Nat) (hdrs : List (List Nat × List (List Nat))) :
    Except PyErr (List (List Nat × List (List Nat))) :=
  match hfind : findSubFrom crlf stream 1 with
  | none => .ok hdrs
  | some e =>
      match splitOnFirst 58 (stream.take e) with
      | none =>
          if hdrs.isEmpty then .error (.attributeError "NameError: header")
          else .error (.invalidHttpRequest "Invalid request header" none)
      | some (hname, hval) => do
          let hname2 ← encodeAscii hname
          let hval2 ← encodeAscii (pyStrip hval)
          headerLines (stream.drop (e + 2)) (MultiValueDict.appendEntry hdrs hname2 hval2)
termination_by stream.length
decreasing_by
  simp only [List.length_drop]
  have hne : stream ≠ [] := by
    intro h
    subst h
    simp [findSubFrom, findSub, crlf] at hfind
  have hpos : 0 < stream.length := List.length_pos.mpr hne
  omega

/-- `parse_request_headers(request_header_stream)` (lines 578–630): split
off the request line at the first `b"\r\n"` found from index 1 (raising
`InvalidHttpRequest("Invalid request.")` when there is none), tokenize
the remaining header lines, raise `InvalidHttpRequest("Invalid
request.")` when no header was parsed, and wrap the headers in a
`MultiValueDict`. -/
def parse_request_headers (stream0 : List Nat) :
    Except PyErr (List Nat × MultiValueDict (List Nat) (List Nat)) := do
  match findSubFrom crlf stream0 1 with
  | none => .error (.invalidHttpRequest "Invalid request." none)
  | some e => do
      let hdrs ← headerLines (stream0.drop (e + 2)) []
      if hdrs.length = 0 then .error (.invalidHttpRequest "Invalid request." none)
      else .ok (stream0.take e, ⟨hdrs⟩)

/-- The six components returned by `_urlparse`. -/
structure UrlParts where
  scheme : List Nat
  netloc : List Nat
  path : List Nat
  params : List Nat
  query : List Nat
  fragment : List Nat
deriving DecidableEq

/-- Scheme characters (letters, digits, `+`, `-`, `.`). -/
def isSchemeChar (b : Nat) : Bool :=
  (65 ≤ b && b ≤ 90) || (97 ≤ b && b ≤ 122) || (48 ≤ b && b ≤ 57) ||
    b = 43 || b = 45 || b = 46

/-- Modelled from the spec: `_urlparse` lives in
`request_parser/utils/http.py`, which is not among the audited sources.
Per spec §4.2 the request-target decomposes into "scheme, authority
('domain'), path, params, query-string, fragment — all defaulted to
empty string when absent", with the shape
`<SCHEME>://<DOMAIN>/<PATH>;<PARAMS>?<QUERY_STRING>#<FRAGMENT>`
(request line comment, line 635).  The model: the fragment follows the
first `#`; a scheme is recognised when a token of scheme characters
precedes `://`, and is lowercased; the authority then runs to the next
`/` or `?`; the query follows the first `?`; params follow the first `;`
of the remaining path. -/
def _urlparse (uri : List Nat) : UrlParts :=
  let (beforeFrag, fragment) :=
    match splitOnFirst 35 uri with
    | some (a, b) => (a, b)
    | none => (uri, [])
  let (scheme, rest) :=
    match splitOnFirst 58 beforeFrag with
    | some (a, b) =>
        if a ≠ [] ∧ a.all isSchemeChar ∧ b.take 2 = [47, 47] then (pyLower a, b)
        else ([], beforeFrag)
    | none => ([], beforeFrag)
  let (netloc, rest2) :=
    if rest.take 2 = [47, 47] then
      let after := rest.drop 2
      let i := ((after.findIdx? fun b => b = 47 || b = 63).getD after.length)
      (after.take i, after.drop i)
    else ([], rest)
  let (beforeQuery, query) :=
    match splitOnFirst 63 rest2 with
    | some (a, b) => (a, b)
    | none => (rest2, [])
  let (path, params) :=
    match splitOnFirst 59 beforeQuery with
    | some (a, b) => (a, b)
    | none => (beforeQuery, [])
  ⟨scheme, netloc, path, params, query, fragment⟩

/-- The dictionary built by `parse_request_line` (its eight
`MetaDict.ReqLine` entries). -/
structure ReqLineMeta where
  scheme : List Nat
  domain : List Nat
  path : List Nat
  params : List Nat
  query : List Nat
  fragment : List Nat
  method : List Nat
  protocol_info : List Nat
deriving DecidableEq

/-- `parse_request_line(request_line)` (lines 632–659).  Its first
statement is `method, uri, protocol_version = ''`: unpacking the empty
string into three targets, which raises `ValueError` unconditionally,
before the argument is examined.  The remaining statements — the bounded
`split(' ', 3)`, the `len > 3` check, the unpacking of the splits, the
non-emptiness check and the `urlparse` decomposition — are embedded
faithfully but are unreachable. -/
def parse_request_line (request_line : List Nat) : Except PyErr ReqLineMeta := do
  let _ ← unpack3 ([] : List (List Nat))
  let _splits := pySplitMax 32 3 request_line
  if _splits.length > 3 then
    .error (.invalidHttpRequest "Invalid request line." (some 400))
  else do
    let (method, uri, protocol_version) ← unpack3 _splits
    if method = [] ∨ uri = [] ∨ protocol_version = [] then
      .error (.invalidHttpRequest "Invalid request line." (some 400))
    else
      let r := _urlparse uri
      .ok ⟨r.scheme, r.netloc, r.path, r.params, r.query, r.fragment,
        method, protocol_version⟩

/-- `'+'` → `' '` (the `.replace('+', ' ')` before unquoting). -/
def plusToSpace (l : List Nat) : List Nat :=
  l.map fun b => if b = 43 then 32 else b

/-- Hex digit value (both cases), `none` for a non-hex byte. -/
def fromHexDigit (b : Nat) : Option Nat :=
  if 48 ≤ b ∧ b ≤ 57 then some (b - 48)
  else if 65 ≤ b ∧ b ≤ 70 then some (b - 55)
  else if 97 ≤ b ∧ b ≤ 102 then some (b - 87)
  else none

/-- Python 2 `urllib.unquote` at the byte level: each `%` followed by two
hex digits becomes the encoded byte; a `%` not followed by two hex
digits stays literal and scanning resumes at the next byte (equivalent
to the `split('%')` formulation of the standard library). -/
def unquoteBytes : List Nat → List Nat
  | [] => []
  | 37 :: h1 :: h2 :: t =>
      match fromHexDigit h1, fromHexDigit h2 with
      | some a, some v => (16 * a + v) :: unquoteBytes t
      | _, _ => 37 :: unquoteBytes (h1 :: h2 :: t)
  | b :: rest => b :: unquoteBytes rest

/-- `unquote(s.replace('+', ' '))` — the per-field decoding of
`limited_parse_qsl`. -/
def unquote_plus (l : List Nat) : List Nat :=
  unquoteBytes (plusToSpace l)

/-- Modelled from the spec: `limited_parse_qsl` lives in
`request_parser/utils/http.py`, which is not among the audited sources.
Per spec §4.6 it is "a bounded parse (a configured maximum field count
must be enforced — exceeding it fails the parse rather than silently
truncating)" with "`keep_blank_values` semantics (a key with no `=` or
with `key=` yields an empty-string value, not an omitted key)".  The
model splits on `&`, enforces the field bound when the configured limit
is non-zero (a falsy limit disables the check), skips empty fragments,
splits each fragment at its first `=` (no `=` ⇒ empty value), and
form-decodes names and values (`+` → space, `%XX` → byte); `parseFrag`
handles one fragment. -/
def parseFrag (nv : List Nat) : Option (List Nat × List Nat) :=
  if nv.isEmpty then none
  else
    match splitOnFirst 61 nv with
    | none => some (unquote_plus nv, [])
    | some (n, v) => some (unquote_plus n, unquote_plus v)

/-- The bounded parse itself (see `parseFrag`). -/
def limited_parse_qsl (fieldsLimit : Nat) (qs : List Nat) :
    Except PyErr (List (List Nat × List Nat)) :=
  let pairs := splitSep 38 qs
  if 0 < fieldsLimit ∧ pairs.length > fieldsLimit then .error .tooManyFieldsSent
  else .ok (pairs.filterMap parseFrag)

/-- `QueryDict.__init__(query_string, mutable, encoding)` (lines
400–422): parse the query string with `limited_parse_qsl`
(`keep_blank_values=True`, the configured field limit), `appendlist`
each pair (the instance is class-level mutable during `__init__`), then
set the `_mutable` flag. -/
def QueryDict.ofQueryString (fieldsLimit : Nat) (qs : List Nat)
    (mutableFlag : Bool) : Except PyErr QueryDict := do
  let pairs ← limited_parse_qsl fieldsLimit qs
  .ok ⟨pairs.foldl
        (fun m kv => m.appendlist (bytes_to_text kv.1) (bytes_to_text kv.2))
        MultiValueDict.empty,
      mutableFlag⟩

/-- The bytes that Python 2 `urllib.quote`/`quote_plus` never escape:
letters, digits, `_`, `.`, `-`. -/
def isAlwaysSafe (b : Nat) : Bool :=
  (65 ≤ b && b ≤ 90) || (97 ≤ b && b ≤ 122) || (48 ≤ b && b ≤ 57) ||
    b = 95 || b = 46 || b = 45

/-- Upper-case hex digit of a value `< 16`. -/
def toHexDigit (n : Nat) : Nat :=
  if n < 10 then 48 + n else 55 + n

/-- Python 2 `urllib.quote_plus(s)` (the default-path encoder used by
`urllib.urlencode({k: v})`): safe bytes stay, space becomes `+`, every
other byte becomes `%XX` with upper-case hex.  For genuine bytes
(`< 256`) the two hex digits are exactly `'%02X' % b`. -/
def quote_plus (s : List Nat) : List Nat :=
  s.flatMap fun b =>
    if isAlwaysSafe b then [b]
    else if b = 32 then [43]
    else [37, toHexDigit (b / 16 % 16), toHexDigit (b % 16)]

/-- Python 2 `urllib.quote(s, safe)`: like `quote_plus` but with extra
user-supplied safe bytes and no special treatment of the space. -/
def quoteSafe (safe : List Nat) (s : List Nat) : List Nat :=
  s.flatMap fun b =>
    if isAlwaysSafe b || b ∈ safe then [b]
    else [37, toHexDigit (b / 16 % 16), toHexDigit (b % 16)]

/-- Python `sep.join(pieces)` for a one-byte separator. -/
def joinSep (sep : Nat) : List (List Nat) → List Nat
  | [] => []
  | [f] => f
  | f :: rest => f ++ sep :: joinSep sep rest

/-- `QueryDict.urlencode(safe)` (lines 512–539): one `k=v` fragment per
value, in `lists()` order, joined with `&`.  With `safe` given each side
is quoted by `quote(·, safe)`; otherwise each pair is form-encoded by
`urlencode({k: v})`, i.e. `quote_plus(k) + '=' + quote_plus(v)`.  The
`.encode(self.encoding)` transport is the identity in the byte model. -/
def QueryDict.urlencode (q : QueryDict) (safe : Option (List Nat)) : List Nat :=
  joinSep 38 <|
    q.mvd.entries.flatMap fun e =>
      e.2.map fun v =>
        match safe with
        | some sf => quoteSafe sf e.1 ++ [61] ++ quoteSafe sf v
        | none => quote_plus e.1 ++ [61] ++ quote_plus v

/-- The request properties populated by a (hypothetically) successful
`HttpRequest.parse_request_header`, plus the final state of the request
stream after the body-prefix pushback. -/
structure HttpFields where
  scheme : List Nat
  host : List Nat
  port : PortVal
  method : List Nat
  path : List Nat
  protocol_info : List Nat
  content_type : Option (List Nat)
  query_string : List Nat
  getDict : QueryDict
  request_headers : MultiValueDict (List Nat) (List Nat)
  stream_rest : List Nat
deriving DecidableEq

namespace HttpRequest

/-- Lines 244–284 of `HttpRequest.parse_request_header`: resolve the host
(the request-target authority wins over the `Host` header, which is
read with `MultiValueDict.__getitem__` and deleted; no source of host
raises `NoHostFoundException`; the `[]` sentinel of an empty stored
list — unreachable from this parser, whose header lists are never
empty — is modelled as the empty byte string), lowercase the scheme (`'UNKNOWN'` when
the target had none), `split_domain_port`, apply the default-port
policy, promote method/path/protocol, read `Content-Type` with `.get`
and then unconditionally `del request_headers['Content-Type']` (a plain
`dict` deletion, `KeyError` when absent), and build `GET` from the query
string (`QueryDict(qs)`, immutable, when non-empty; an empty mutable
`QueryDict` otherwise). -/
def populate_request_info (meta : ReqLineMeta)
    (request_headers : MultiValueDict (List Nat) (List Nat))
    (fieldsLimit : Nat) (stream_rest : List Nat) : Except PyErr HttpFields := do
  let (host0, headers1) ←
    if meta.domain ≠ [] then pure (meta.domain, request_headers)
    else if request_headers.contains (bytesOf "Host") then do
      let hv ← request_headers.getitem (bytesOf "Host")
      let headers1 ← request_headers.delitem (bytesOf "Host")
      pure (hv.getD [], headers1)
    else .error .noHostFoundException
  let scheme := if meta.scheme ≠ [] then pyLower meta.scheme else bytesOf "UNKNOWN"
  let (host, port0) := split_domain_port host0
  let port := resolve_port meta.scheme port0
  let content_type := headers1.get (bytesOf "Content-Type") none
  let headers2 ← headers1.delitem (bytesOf "Content-Type")
  let getDict ←
    if meta.query ≠ [] then QueryDict.ofQueryString fieldsLimit meta.query false
    else QueryDict.ofQueryString fieldsLimit [] true
  .ok ⟨scheme, host, port, meta.method, meta.path, meta.protocol_info,
    content_type, meta.query, getDict, headers2, stream_rest⟩

/-- `HttpRequest.parse_request_header` (lines 209–284): frame the header
out of the stream, tokenize the request line and the header fields,
parse the request line, and populate the request fields.  `max` is
`settings.MAX_HEADER_SIZE`, `fieldsLimit` is
`settings.DATA_UPLOAD_MAX_NUMBER_FIELDS`. -/
def parse_request_header (max fieldsLimit : Nat) (stream : List Nat) :
    Except PyErr HttpFields := do
  let (request_header, stream2) ← frameHeader max stream
  let (request_line, request_headers) ← parse_request_headers request_header
  let meta ← parse_request_line request_line
  populate_request_info meta request_headers fieldsLimit stream2

end HttpRequest

/-- The attribute state of an `HttpRequest` relevant to the `body`
property: `_body` and `_read_started` model Python attributes that may
not exist (`none` = never assigned), `_stream` the byte source assigned
by a subclass or by `body` itself. -/
structure HttpRequestModel where
  _body : Option (List Nat)
  _read_started : Option Bool
  _stream : Option (List Nat)
deriving DecidableEq

namespace HttpRequest

/-- `HttpRequest.__init__` (lines 60–79) assigns neither `_body` nor
`_read_started` nor `_stream`. -/
def init : HttpRequestModel := ⟨none, none, none⟩

/-- `HttpRequest.read()` (lines 348–353): set `_read_started = True`,
then read everything from `self._stream` (an `AttributeError` when no
subclass assigned it). -/
def read (r : HttpRequestModel) : Except PyErr (List Nat × HttpRequestModel) :=
  match r._stream with
  | none => .error (.attributeError "_stream")
  | some s => .ok (s, { r with _read_started := some true, _stream := some [] })

/-- `HttpRequest.body` (lines 180–207): when `_body` is buffered, return
it; otherwise consult `self._read_started` (an `AttributeError` when it
was never assigned — the constructor does not initialize it), raise
`RawPostDataException` when reading already started, enforce
`settings.DATA_UPLOAD_MAX_MEMORY_SIZE` against the declared
`CONTENT_LENGTH`, then buffer `self.read()` and point `_stream` at the
buffer. -/
def body (maxMem : Option Nat) (contentLength : Nat) (r : HttpRequestModel) :
    Except PyErr (List Nat × HttpRequestModel) :=
  match r._body with
  | some b => .ok (b, r)
  | none =>
      match r._read_started with
      | none => .error (.attributeError "_read_started")
      | some started =>
          if started then .error .rawPostDataException
          else
            let doRead : Except PyErr (List Nat × HttpRequestModel) :=
              match read r with
              | .error e => .error e
              | .ok (b, r2) => .ok (b, { r2 with _body := some b, _stream := some b })
            match maxMem with
            | some m => if contentLength > m then .error .requestDataTooBig else doRead
            | none => doRead

end HttpRequest

/-- The encoded `k=v` fragment of one pair, as produced by
`QueryDict.urlencode` with no `safe` argument. -/
def encPair (kv : List Nat × List Nat) : List Nat :=
  quote_plus kv.1 ++ 61 :: quote_plus kv.2

/-- All `(key, value)` pairs of a header-style association list, in
order. -/
def flatPairs (es : List (List Nat × List (List Nat))) :
    List (List Nat × List Nat) :=
  es.flatMap fun e => e.2.map fun v => (e.1, v)

namespace MultiValueDict

variable {K V : Type} [DecidableEq K]

theorem find?_appendEntry (k : K) (v : V) : ∀ es : List (K × List V),
    (appendEntry es k v).find? (fun e => decide (e.1 = k)) =
      some (k, (((es.find? fun e => decide (e.1 = k)).map Prod.snd).getD []) ++ [v])
  | [] => by simp [appendEntry]
  | e :: es => by
      by_cases h : e.1 = k
      · simp [appendEntry, h, List.find?]
      · simp [appendEntry, h, List.find?_cons_of_neg, find?_appendEntry k v es]

theorem superGet_appendlist (d : MultiValueDict K V) (k : K) (v : V) :
    (d.appendlist k v).superGet k = some (d._getlist k none ++ [v]) := by
  show ((appendEntry d.entries k v).find? _).map Prod.snd = _
  rw [find?_appendEntry]
  cases hfind : d.entries.find? fun e => decide (e.1 = k) <;>
    simp [_getlist, superGet, hfind]

theorem getlist_appendlist (d : MultiValueDict K V) (k : K) (v : V) :
    (d.appendlist k v).getlist k none = d.getlist k none ++ [v] := by
  simp [getlist, _getlist, superGet_appendlist]

theorem get_appendlist (d : MultiValueDict K V) (k : K) (v : V) :
    (d.appendlist k v).get k none = some v := by
  simp [get, superGet_appendlist]

theorem find?_setEntry (k : K) (l : List V) : ∀ es : List (K × List V),
    (setEntry es k l).find? (fun e => decide (e.1 = k)) = some (k, l)
  | [] => by simp [setEntry]
  | e :: es => by
      by_cases h : e.1 = k
      · simp [setEntry, h, List.find?]
      · simp [setEntry, h, List.find?_cons_of_neg, find?_setEntry k l es]

theorem contains_of_superGet (d : MultiValueDict K V) (k : K)
    (h : (d.superGet k).isSome) : d.contains k = true := by
  unfold superGet at h
  unfold contains
  cases hfind : d.entries.find? fun e => decide (e.1 = k) with
  | none => rw [hfind] at h; simp at h
  | some e =>
      rw [List.any_eq_true]
      have hp : (fun e : K × List V => decide (e.1 = k)) e = true :=
        List.find?_some (p := fun e : K × List V => decide (e.1 = k)) hfind
      exact ⟨e, List.mem_of_find?_eq_some hfind, hp⟩

theorem contains_setlist (d : MultiValueDict K V) (k : K) (l : List V) :
    (d.setlist k l).contains k = true := by
  apply contains_of_superGet
  show (((setEntry d.entries k l).find? _).map Prod.snd).isSome
  rw [find?_setEntry]
  rfl

theorem getlist_setlist (d : MultiValueDict K V) (k : K) (l : List V) :
    (d.setlist k l).getlist k none = l := by
  show _getlist _ _ _ = _
  unfold _getlist
  show (match (((setEntry d.entries k l).find? _).map Prod.snd) with
        | none => (none : Option (List V)).getD []
        | some l => l) = l
  rw [find?_setEntry]
  rfl

end MultiValueDict

/-- C6 (counterexample): the claimed invariant "a key is present iff its
value list is non-empty" fails on the code: `setlist(k, [])` stores an
empty list under the key, after which the key is present (`k in d` is
true) while `getlist(k)` is empty. -/
theorem c6_present_iff_nonempty_fails :
    ¬ ((((MultiValueDict.empty (K := String) (V := String)).setlist "a" []).contains "a" = true) ↔
       ((MultiValueDict.empty (K := String) (V := String)).setlist "a" []).getlist "a" none ≠ []) := by
  decide

/-- C6 (amended): after `appendlist(k,v1); appendlist(k,v2)` the plain
`get(k)` returns the last-appended value and `getlist(k)` the full
ordered list extended by `[v1, v2]`; a non-empty `getlist` implies the
key is present; but presence does not imply non-emptiness —
`setlist(k, [])` leaves the key present with an empty list — and
`MultiValueDict` has no per-value removal operation: a key is removed
only wholesale, by deletion (`__delitem__`), after which it is absent. -/
theorem c6_multivaluedict_invariants (d : MultiValueDict String String)
    (k : String) (v1 v2 : String) :
    (((d.appendlist k v1).appendlist k v2).get k none = some v2) ∧
    (((d.appendlist k v1).appendlist k v2).getlist k none =
      d.getlist k none ++ [v1, v2]) ∧
    (d.getlist k none ≠ [] → d.contains k = true) ∧
    ((d.setlist k []).contains k = true) ∧
    ((d.setlist k []).getlist k none = []) ∧
    (∀ d2, d.delitem k = .ok d2 → d2.contains k = false) := by
  refine ⟨MultiValueDict.get_appendlist _ k v2, ?_, ?_, MultiValueDict.contains_setlist d k [],
    MultiValueDict.getlist_setlist d k [], ?_⟩
  · rw [MultiValueDict.getlist_appendlist, MultiValueDict.getlist_appendlist,
      List.append_assoc]
    rfl
  · intro hne
    apply MultiValueDict.contains_of_superGet
    unfold MultiValueDict.getlist MultiValueDict._getlist at hne
    cases hget : d.superGet k with
    | none => rw [hget] at hne; simp at hne
    | some l => rfl
  · intro d2 hdel
    unfold MultiValueDict.delitem at hdel
    by_cases hc : d.contains k = true
    · rw [if_pos hc] at hdel
      cases hdel
      simp [MultiValueDict.contains, List.any_eq_true, List.mem_filter]
    · rw [if_neg hc] at hdel
      cases hdel

/-- C6 (witness): the amended statement evaluated at the one-key
dictionary `{"a": ["x"]}`, discharging the non-emptiness hypothesis and
the deletion hypothesis at concrete inputs. -/
theorem c6_multivaluedict_invariants_witness :
    (((⟨[("a", ["x"])]⟩ : MultiValueDict String String).appendlist "a" "x").appendlist "a" "y").get "a" none = some "y" ∧
    (((⟨[("a", ["x"])]⟩ : MultiValueDict String String).contains "a") = true) ∧
    ((⟨[]⟩ : MultiValueDict String String).contains "a" = false) := by
  have h := c6_multivaluedict_invariants (⟨[("a", ["x"])]⟩ : MultiValueDict String String) "a" "x" "y"
  exact ⟨h.1, h.2.2.1 (by decide), h.2.2.2.2.2 ⟨[]⟩ (by rfl)⟩

/-- C7: on a `QueryDict` whose mutable flag is false, every mutating
operation (`__setitem__`, `__delitem__`, `setlist`, `setlistdefault`,
`appendlist`, `pop`, `popitem`, `clear`, `setdefault`) fails with the
same `AttributeError("This QueryDict instance is immutable")`, whichever
operation was attempted; since `_assert_mutable` is each operation's
first statement, the error is raised before any state is changed (the
embedded operations return only the error, never an updated
dictionary). -/
theorem c7_immutable_mutation_uniform (q : QueryDict) (k v : List Nat)
    (l : List (List Nat)) (h : q._mutable = false) :
    q.setitem k v = .error (.attributeError "This QueryDict instance is immutable") ∧
    q.delitem k = .error (.attributeError "This QueryDict instance is immutable") ∧
    q.setlist k l = .error (.attributeError "This QueryDict instance is immutable") ∧
    q.setlistdefault k none = .error (.attributeError "This QueryDict instance is immutable") ∧
    q.appendlist k v = .error (.attributeError "This QueryDict instance is immutable") ∧
    q.pop k = .error (.attributeError "This QueryDict instance is immutable") ∧
    q.popitem = .error (.attributeError "This QueryDict instance is immutable") ∧
    q.clear = .error (.attributeError "This QueryDict instance is immutable") ∧
    q.setdefault k v = .error (.attributeError "This QueryDict instance is immutable") := by
  have ha : q._assert_mutable =
      .error (.attributeError "This QueryDict instance is immutable") := by
    simp [QueryDict._assert_mutable, h]
  refine ⟨?_, ?_, ?_, ?_, ?_, ?_, ?_, ?_, ?_⟩ <;>
    simp [QueryDict.setitem, QueryDict.delitem, QueryDict.setlist,
      QueryDict.setlistdefault, QueryDict.appendlist, QueryDict.pop,
      QueryDict.popitem, QueryDict.clear, QueryDict.setdefault, ha,
      Bind.bind, Except.bind]

/-- C7 (witness): the uniform-failure statement evaluated on a concrete
immutable `QueryDict`. -/
theorem c7_immutable_mutation_uniform_witness :
    (⟨⟨[]⟩, false⟩ : QueryDict).setitem [] [] =
      .error (.attributeError "This QueryDict instance is immutable") ∧
    (⟨⟨[]⟩, false⟩ : QueryDict).delitem [] =
      .error (.attributeError "This QueryDict instance is immutable") ∧
    (⟨⟨[]⟩, false⟩ : QueryDict).setlist [] [] =
      .error (.attributeError "This QueryDict instance is immutable") ∧
    (⟨⟨[]⟩, false⟩ : QueryDict).setlistdefault [] none =
      .error (.attributeError "This QueryDict instance is immutable") ∧
    (⟨⟨[]⟩, false⟩ : QueryDict).appendlist [] [] =
      .error (.attributeError "This QueryDict instance is immutable") ∧
    (⟨⟨[]⟩, false⟩ : QueryDict).pop [] =
      .error (.attributeError "This QueryDict instance is immutable") ∧
    (⟨⟨[]⟩, false⟩ : QueryDict).popitem =
      .error (.attributeError "This QueryDict instance is immutable") ∧
    (⟨⟨[]⟩, false⟩ : QueryDict).clear =
      .error (.attributeError "This QueryDict instance is immutable") ∧
    (⟨⟨[]⟩, false⟩ : QueryDict).setdefault [] [] =
      .error (.attributeError "This QueryDict instance is immutable") :=
  c7_immutable_mutation_uniform ⟨⟨[]⟩, false⟩ [] [] [] rfl

theorem pyLower_eq_map (l : List Nat) : pyLower l = l.map pyLowerByte := by
  simp [pyLower, pyLowerByte]

theorem pyLowerByte_idem (b : Nat) : pyLowerByte (pyLowerByte b) = pyLowerByte b := by
  unfold pyLowerByte
  split_ifs <;> omega

theorem pyLower_idem (l : List Nat) : pyLower (pyLower l) = pyLower l := by
  simp [pyLower_eq_map, List.map_map, Function.comp_def, pyLowerByte_idem]

theorem splitOnFirst_eq {sep : Nat} : ∀ {l a b : List Nat},
    splitOnFirst sep l = some (a, b) → l = a ++ sep :: b
  | [], a, b => by intro h; simp [splitOnFirst] at h
  | c :: rest, a, b => by
      intro h
      unfold splitOnFirst at h
      by_cases hc : c = sep
      · rw [if_pos hc] at h
        simp only [Option.some.injEq, Prod.mk.injEq] at h
        obtain ⟨ha, hb⟩ := h
        subst ha
        subst hb
        simp [hc]
      · rw [if_neg hc] at h
        cases hsp : splitOnFirst sep rest with
        | none => rw [hsp] at h; simp at h
        | some q =>
            rw [hsp] at h
            simp only [Option.map_some', Option.some.injEq, Prod.mk.injEq] at h
            obtain ⟨ha, hb⟩ := h
            subst ha
            subst hb
            have hrest := splitOnFirst_eq hsp
            simp [← hrest]

theorem rsplitLast_eq {sep : Nat} {l d p : List Nat}
    (hr : rsplitLast sep l = some (d, p)) : l = d ++ sep :: p := by
  unfold rsplitLast at hr
  cases hsp : splitOnFirst sep l.reverse with
  | none => rw [hsp] at hr; simp at hr
  | some q =>
      rw [hsp] at hr
      simp only [Option.map_some', Option.some.injEq, Prod.mk.injEq] at hr
      obtain ⟨hd, hp⟩ := hr
      have hl : l.reverse = q.1 ++ sep :: q.2 := splitOnFirst_eq hsp
      have : l = (q.1 ++ sep :: q.2).reverse := by
        rw [← hl, List.reverse_reverse]
      rw [this, ← hd, ← hp]
      simp

theorem pyLowerByte_of_mem_pyLower {b : Nat} {h : List Nat}
    (hb : b ∈ pyLower h) : pyLowerByte b = b := by
  rw [pyLower_eq_map] at hb
  obtain ⟨c, _, rfl⟩ := List.mem_map.mp hb
  exact pyLowerByte_idem c

theorem pyLower_fix_of_subset {l h : List Nat}
    (hs : ∀ x ∈ l, x ∈ pyLower h) : pyLower l = l := by
  rw [pyLower_eq_map]
  induction l with
  | nil => rfl
  | cons a t ih =>
      simp only [List.map_cons,
        pyLowerByte_of_mem_pyLower (hs a (by simp)), List.cons.injEq, true_and]
      exact ih fun x hx => hs x (List.mem_cons_of_mem a hx)

theorem split_domain_port_lower_insensitive (h : List Nat) :
    split_domain_port (pyLower h) = split_domain_port h := by
  unfold split_domain_port
  rw [pyLower_idem]

theorem split_domain_port_domain_lowercase (h : List Nat) :
    pyLower (split_domain_port h).1 = (split_domain_port h).1 := by
  unfold split_domain_port
  by_cases hv : hostValidationMatches (pyLower h)
  · simp only [hv, Bool.not_true, Bool.false_eq_true, if_false]
    by_cases hlast : (pyLower h).getLast? = some 93
    · simp [hlast, pyLower_idem]
    · simp only [hlast, if_false, ite_false]
      cases hr : rsplitLast 58 (pyLower h) with
      | none =>
          simp only [hr]
          by_cases hdot : (pyLower h).getLast? = some 46
          · simp only [hdot, if_true, ite_true]
            exact pyLower_fix_of_subset fun x hx =>
              List.mem_of_mem_dropLast (by rw [pyLower_idem]; exact hx)
          · simp [hdot, pyLower_idem]
      | some dp =>
          have hsplit : pyLower h = dp.1 ++ 58 :: dp.2 := rsplitLast_eq (by rw [hr])
          simp only [hr]
          by_cases hdot : dp.1.getLast? = some 46
          · simp only [hdot, if_true, ite_true]
            exact pyLower_fix_of_subset fun x hx => by
              rw [pyLower_idem, hsplit]
              exact List.mem_append_left _ (List.mem_of_mem_dropLast hx)
          · simp only [hdot, if_false, ite_false]
            exact pyLower_fix_of_subset fun x hx => by
              rw [pyLower_idem, hsplit]
              exact List.mem_append_left _ hx
  · simp only [Bool.not_eq_true] at hv
    simp only [hv, Bool.not_false, if_true]
    rfl

/-- C5: `split_domain_port` lowercases its input (it is insensitive to
input case and its returned domain is already lowercase); a token that
does not match the host grammar yields `("", "")`;
`"example.com:8443"` yields host `"example.com"` and port `"8443"`; and
when the returned port is empty the caller's policy assigns 443 for
scheme `https`, 80 for `http`, and the invalid-port sentinel 65536 (a
value, not a crash) for any other scheme, while a non-empty port string
is kept as is. -/
theorem c5_split_domain_port_and_default_port (hst scheme p : List Nat) :
    (split_domain_port (pyLower hst) = split_domain_port hst) ∧
    (pyLower (split_domain_port hst).1 = (split_domain_port hst).1) ∧
    (hostValidationMatches (pyLower hst) = false → split_domain_port hst = ([], [])) ∧
    (split_domain_port (bytesOf "example.com:8443") =
      (bytesOf "example.com", bytesOf "8443")) ∧
    (resolve_port (bytesOf "https") [] = .num 443) ∧
    (resolve_port (bytesOf "http") [] = .num 80) ∧
    (pyLower scheme ≠ bytesOf "https" → pyLower scheme ≠ bytesOf "http" →
      resolve_port scheme [] = .num 65536) ∧
    (p ≠ [] → resolve_port scheme p = .str p) := by
  refine ⟨split_domain_port_lower_insensitive hst,
    split_domain_port_domain_lowercase hst, ?_, by decide, by decide, by decide,
    ?_, ?_⟩
  · intro hm
    unfold split_domain_port
    simp [hm]
  · intro h1 h2
    simp [resolve_port, h1, h2]
  · intro hp
    simp [resolve_port, hp]

/-- C5 (witness): the conditional parts evaluated at concrete inputs — an
invalid host token (contains a space), the unknown scheme `ftp`, and the
non-empty port string `8080`. -/
theorem c5_split_domain_port_and_default_port_witness :
    split_domain_port (bytesOf "bad host") = ([], []) ∧
    resolve_port (bytesOf "ftp") [] = .num 65536 ∧
    resolve_port (bytesOf "ftp") (bytesOf "8080") = .str (bytesOf "8080") := by
  obtain ⟨-, -, h3, -, -, -, h7, h8⟩ :=
    c5_split_domain_port_and_default_port (bytesOf "bad host") (bytesOf "ftp")
      (bytesOf "8080")
  exact ⟨h3 (by decide), h7 (by decide) (by decide), h8 (by decide)⟩

theorem parse_request_line_raises (request_line : List Nat) :
    parse_request_line request_line = .error .valueError := rfl

/-- C2: `parse_request_line` raises on every input before examining its
argument — its first statement `method, uri, protocol_version = ''`
unpacks the empty string into three targets, a `ValueError` — and
consequently `parse_request_header` (whose `parse()` caller runs it
first) never returns successfully for any chunk size, field limit and
request stream. -/
theorem c2_parse_request_line_always_raises :
    (∀ request_line : List Nat, parse_request_line request_line = .error .valueError) ∧
    (∀ max fieldsLimit : Nat, ∀ stream : List Nat,
      ∃ e, HttpRequest.parse_request_header max fieldsLimit stream = .error e) := by
  refine ⟨fun l => rfl, fun max fieldsLimit stream => ?_⟩
  unfold HttpRequest.parse_request_header
  cases hf : frameHeader max stream with
  | error e => exact ⟨e, by simp [hf, Bind.bind, Except.bind]⟩
  | ok pr =>
      obtain ⟨hdr, s2⟩ := pr
      cases hh : parse_request_headers hdr with
      | error e2 => exact ⟨e2, by simp [hf, hh, Bind.bind, Except.bind]⟩
      | ok pr2 =>
          obtain ⟨line, hdrs⟩ := pr2
          exact ⟨.valueError, by
            simp [hf, hh, Bind.bind, Except.bind, parse_request_line_raises]⟩

/-- C3: the request-line tokenizer does not accept even a well-formed
`method SP target SP protocol` line: on `"GET /p HTTP/1.1"` (exactly
three non-empty space-separated tokens) `parse_request_line` raises
`ValueError` from its initial `method, uri, protocol_version = ''`
unpacking rather than returning the three tokens — and the error is not
the `InvalidHttpRequest` (status 400) the claim prescribes for
malformed lines either. -/
theorem c3_request_line_tokenization_broken :
    parse_request_line (bytesOf "GET /p HTTP/1.1") = .error .valueError ∧
    (PyErr.valueError ≠ .invalidHttpRequest "Invalid request line." (some 400)) :=
  ⟨rfl, by decide⟩

theorem parse_get_example_request_eval :
    HttpRequest.parse_request_header 8192 1000
      (bytesOf "GET /p?q=1&q=2 HTTP/1.1\r\nHost: example.com\r\n\r\n") =
      .error .valueError := by
  have h1 : scanHeader 8192
      (bytesOf "GET /p?q=1&q=2 HTTP/1.1\r\nHost: example.com\r\n\r\n") [] =
      .found (bytesOf "GET /p?q=1&q=2 HTTP/1.1\r\nHost: example.com") 42
        (bytesOf "GET /p?q=1&q=2 HTTP/1.1\r\nHost: example.com\r\n\r\n") [] := by
    rw [scanHeader.eq_def]
    decide
  have h2 : frameHeader 8192
      (bytesOf "GET /p?q=1&q=2 HTTP/1.1\r\nHost: example.com\r\n\r\n") =
      .ok (bytesOf "GET /p?q=1&q=2 HTTP/1.1\r\nHost: example.com\r\n", []) := by
    unfold frameHeader
    rw [h1]
    decide
  have h3 : headerLines (bytesOf "Host: example.com\r\n") [] =
      headerLines [] [(bytesOf "Host", [bytesOf "example.com"])] := by
    conv_lhs => rw [headerLines.eq_def]
    rfl
  have h4 : headerLines ([] : List Nat) [(bytesOf "Host", [bytesOf "example.com"])] =
      .ok [(bytesOf "Host", [bytesOf "example.com"])] := by
    rw [headerLines.eq_def]
    decide
  have h5 : parse_request_headers
      (bytesOf "GET /p?q=1&q=2 HTTP/1.1\r\nHost: example.com\r\n") =
      .ok (bytesOf "GET /p?q=1&q=2 HTTP/1.1",
        ⟨[(bytesOf "Host", [bytesOf "example.com"])]⟩) := by
    unfold parse_request_headers
    simp only [show findSubFrom crlf
        (bytesOf "GET /p?q=1&q=2 HTTP/1.1\r\nHost: example.com\r\n") 1 = some 23
      from by decide]
    rw [show List.drop (23 + 2)
        (bytesOf "GET /p?q=1&q=2 HTTP/1.1\r\nHost: example.com\r\n") =
        bytesOf "Host: example.com\r\n" from by decide]
    rw [h3.trans h4]
    decide
  unfold HttpRequest.parse_request_header
  simp only [h2, h5, Bind.bind, Except.bind, parse_request_line_raises]

/-- C1: the specified end-to-end success is impossible — on the exact
input byte stream of the claim, `parse_request_header` raises
`ValueError` (from `parse_request_line`'s initial unpacking of the empty
string) instead of succeeding with method `GET`, host `example.com`,
port 80 and path `/p`. -/
theorem c1_end_to_end_get_request_raises :
    HttpRequest.parse_request_header 8192 1000
      (bytesOf "GET /p?q=1&q=2 HTTP/1.1\r\nHost: example.com\r\n\r\n") =
      .error .valueError :=
  parse_get_example_request_eval

theorem parse_request_header_always_errors (max fieldsLimit : Nat)
    (stream : List Nat) :
    ∃ e, HttpRequest.parse_request_header max fieldsLimit stream = .error e := by
  unfold HttpRequest.parse_request_header
  cases hf : frameHeader max stream with
  | error e => exact ⟨e, by simp [hf, Bind.bind, Except.bind]⟩
  | ok pr =>
      obtain ⟨hdr, s2⟩ := pr
      cases hh : parse_request_headers hdr with
      | error e2 => exact ⟨e2, by simp [hf, hh, Bind.bind, Except.bind]⟩
      | ok pr2 =>
          obtain ⟨line, hdrs⟩ := pr2
          exact ⟨.valueError, by
            simp [hf, hh, Bind.bind, Except.bind, parse_request_line_raises]⟩

/-- C9 (amended): `parse_request_header` does contain an unconditional
`del request_headers['Content-Type']` after reading the value, and on
the field-population path any header map without a `Content-Type` key
makes that deletion raise `KeyError` (a missing-key error); but in the
program as written that statement is unreachable — `parse_request_line`
raises `ValueError` first, so header parsing fails for every request
(with or without `Content-Type`) before the deletion is reached. -/
theorem c9_content_type_unconditional_delete (meta : ReqLineMeta)
    (hdrs : MultiValueDict (List Nat) (List Nat)) (fieldsLimit : Nat)
    (rest : List Nat) (hdom : meta.domain ≠ [])
    (hct : hdrs.contains (bytesOf "Content-Type") = false) :
    HttpRequest.populate_request_info meta hdrs fieldsLimit rest =
      .error .keyError ∧
    (∀ max : Nat, ∀ stream : List Nat,
      ∃ e, HttpRequest.parse_request_header max fieldsLimit stream = .error e) := by
  refine ⟨?_, fun max stream => parse_request_header_always_errors max fieldsLimit stream⟩
  unfold HttpRequest.populate_request_info
  simp [hdom, MultiValueDict.delitem, hct, Bind.bind, Except.bind, Pure.pure,
    Except.pure]

/-- C9 (counterexample): a well-formed request with a `Host` header and
no `Content-Type` header makes `parse_request_header` fail with
`ValueError` — not with the missing-key (`KeyError`) failure the claim
asserts. -/
theorem c9_counterexample_no_missing_key_error :
    HttpRequest.parse_request_header 8192 1000
      (bytesOf "GET /p?q=1&q=2 HTTP/1.1\r\nHost: example.com\r\n\r\n") =
      .error .valueError ∧ PyErr.valueError ≠ PyErr.keyError :=
  ⟨parse_get_example_request_eval, by decide⟩

/-- C9 (witness): the populate-path half evaluated at a concrete
absolute-form request line meta and a header map without
`Content-Type`. -/
theorem c9_content_type_unconditional_delete_witness :
    HttpRequest.populate_request_info
      ⟨bytesOf "http", bytesOf "example.com", bytesOf "/p", [], [], [],
        bytesOf "GET", bytesOf "HTTP/1.1"⟩
      ⟨[(bytesOf "Accept", [bytesOf "*"])]⟩ 1000 [] = .error .keyError ∧
    (∀ max : Nat, ∀ stream : List Nat,
      ∃ e, HttpRequest.parse_request_header max 1000 stream = .error e) :=
  c9_content_type_unconditional_delete
    ⟨bytesOf "http", bytesOf "example.com", bytesOf "/p", [], [], [],
      bytesOf "GET", bytesOf "HTTP/1.1"⟩
    ⟨[(bytesOf "Accept", [bytesOf "*"])]⟩ 1000 [] (by decide) (by decide)

/-- C4: if the byte source is exhausted (a read returns the empty string)
before a chunk contains `b"\r\n\r\n"`, header framing fails with
`InvalidHttpRequest("Invalid HTTP request.", 400)` and
`parse_request_header` propagates that error, populating nothing — the
request stays unparsed; otherwise the bytes of the last chunk that
followed the boundary, `chunk[i+4:]`, are pushed back onto the source
ahead of the never-read remainder, preserving their order. -/
theorem c4_header_framing (max : Nat) (stream : List Nat) :
    (∀ acc, scanHeader max stream [] = .exhausted acc →
      frameHeader max stream =
        .error (.invalidHttpRequest "Invalid HTTP request." (some 400)) ∧
      (∀ fieldsLimit, HttpRequest.parse_request_header max fieldsLimit stream =
        .error (.invalidHttpRequest "Invalid HTTP request." (some 400)))) ∧
    (∀ acc i chunk rest, scanHeader max stream [] = .found acc i chunk rest →
      frameHeader max stream = .ok (acc ++ crlf, chunk.drop (i + 4) ++ rest)) := by
  constructor
  · intro acc hsc
    have hfr : frameHeader max stream =
        .error (.invalidHttpRequest "Invalid HTTP request." (some 400)) := by
      unfold frameHeader
      rw [hsc]
    refine ⟨hfr, fun fieldsLimit => ?_⟩
    unfold HttpRequest.parse_request_header
    simp [hfr, Bind.bind, Except.bind]
  · intro acc i chunk rest hsc
    unfold frameHeader
    rw [hsc]

/-- C4 (witness): a source with no `b"\r\n\r\n"` is rejected with the
malformed-framing error, and for a framed source the body prefix
`b"BODY"` of the last chunk is pushed back intact. -/
theorem c4_header_framing_witness :
    frameHeader 8192 (bytesOf "GET / HTTP") =
      .error (.invalidHttpRequest "Invalid HTTP request." (some 400)) ∧
    HttpRequest.parse_request_header 8192 1000 (bytesOf "GET / HTTP") =
      .error (.invalidHttpRequest "Invalid HTTP request." (some 400)) ∧
    frameHeader 8192 (bytesOf "X: 1\r\n\r\nBODY") =
      .ok (bytesOf "X: 1\r\n", bytesOf "BODY") := by
  have hex : scanHeader 8192 (bytesOf "GET / HTTP") [] =
      .exhausted (bytesOf "GET / HTTP") := by
    have ha : scanHeader 8192 (bytesOf "GET / HTTP") [] =
        scanHeader 8192 [] (bytesOf "GET / HTTP") := by
      conv_lhs => rw [scanHeader.eq_def]
      rfl
    have hb : scanHeader 8192 ([] : List Nat) (bytesOf "GET / HTTP") =
        .exhausted (bytesOf "GET / HTTP") := by
      rw [scanHeader.eq_def]
      decide
    exact ha.trans hb
  have hfd : scanHeader 8192 (bytesOf "X: 1\r\n\r\nBODY") [] =
      .found (bytesOf "X: 1") 4 (bytesOf "X: 1\r\n\r\nBODY") [] := by
    rw [scanHeader.eq_def]
    decide
  obtain ⟨h1, h2⟩ := c4_header_framing 8192 (bytesOf "GET / HTTP")
  obtain ⟨hfr, hph⟩ := h1 (bytesOf "GET / HTTP") hex
  refine ⟨hfr, hph 1000, ?_⟩
  have := (c4_header_framing 8192 (bytesOf "X: 1\r\n\r\nBODY")).2
    (bytesOf "X: 1") 4 (bytesOf "X: 1\r\n\r\nBODY") [] hfd
  rw [this]
  decide

/-- C10: on a fresh `HttpRequest` (the constructor assigns neither
`_read_started` nor `_body`), accessing the `body` property raises
`AttributeError` — the `_read_started` flag is assigned only inside
`read()`/`readline()`; and the documented body-already-consumed error
(`RawPostDataException`) is raised only when `_read_started` is set
(`True`) and no buffered `_body` exists. -/
theorem c10_body_before_read_attribute_error :
    (∀ maxMem : Option Nat, ∀ contentLength : Nat,
      HttpRequest.body maxMem contentLength HttpRequest.init =
        .error (.attributeError "_read_started")) ∧
    (∀ maxMem : Option Nat, ∀ contentLength : Nat, ∀ r : HttpRequestModel,
      HttpRequest.body maxMem contentLength r = .error .rawPostDataException →
      r._read_started = some true ∧ r._body = none) := by
  refine ⟨fun maxMem cl => rfl, fun maxMem cl r h => ?_⟩
  obtain ⟨rb, rs, rst⟩ := r
  cases rb with
  | some b => simp [HttpRequest.body] at h
  | none =>
      cases rs with
      | none => simp [HttpRequest.body] at h
      | some started =>
          cases started with
          | true => exact ⟨rfl, rfl⟩
          | false =>
              exfalso
              cases rst <;> cases maxMem <;>
                simp [HttpRequest.body, HttpRequest.read] at h <;>
                [skip; skip] <;> split at h <;> simp at h

/-- C10 (witness): the consumed-body error at a concrete state with
`_read_started` set and no buffered body. -/
theorem c10_body_before_read_attribute_error_witness :
    (⟨none, some true, none⟩ : HttpRequestModel)._read_started = some true ∧
    (⟨none, some true, none⟩ : HttpRequestModel)._body = none :=
  c10_body_before_read_attribute_error.2 none 0 ⟨none, some true, none⟩ rfl

theorem unquoteBytes_cons_ne {b : Nat} (hb : b ≠ 37) (rest : List Nat) :
    unquoteBytes (b :: rest) = b :: unquoteBytes rest := by
  match rest with
  | [] => simp [unquoteBytes, hb]
  | [x] => simp [unquoteBytes, hb]
  | h1 :: h2 :: t =>
      unfold unquoteBytes
      split
      · simp_all
      · rename_i heq
        exact absurd (List.cons.inj heq).1 hb
      · rename_i heq
        obtain ⟨rfl, rfl⟩ := And.intro (List.cons.inj heq).1 (List.cons.inj heq).2
        rw [← unquoteBytes.eq_def]

theorem unquoteBytes_escape {h1 h2 a v : Nat} (e1 : fromHexDigit h1 = some a)
    (e2 : fromHexDigit h2 = some v) (t : List Nat) :
    unquoteBytes (37 :: h1 :: h2 :: t) = (16 * a + v) :: unquoteBytes t := by
  simp [unquoteBytes, e1, e2]

theorem fromHexDigit_lt {b a : Nat} (h : fromHexDigit b = some a) : a < 16 := by
  unfold fromHexDigit at h
  split_ifs at h <;> simp_all <;> omega

theorem unquoteBytes_mem_bound : ∀ (l : List Nat), (∀ x ∈ l, x < 256) →
    ∀ y ∈ unquoteBytes l, y < 256 := by
  intro l
  induction l using unquoteBytes.induct with
  | case1 => simp [unquoteBytes]
  | case2 h1 h2 t a v e2 e1 ih =>
      intro hl y hy
      rw [unquoteBytes_escape e1 e2] at hy
      rcases List.mem_cons.mp hy with rfl | hy2
      · have := fromHexDigit_lt e1
        have := fromHexDigit_lt e2
        omega
      · exact ih (fun x hx => hl x (by simp [hx])) y hy2
  | case3 h1 h2 t e12 ih =>
      intro hl y hy
      have hstep : unquoteBytes (37 :: h1 :: h2 :: t) =
          37 :: unquoteBytes (h1 :: h2 :: t) := by
        cases e1 : fromHexDigit h1 with
        | none => cases e2 : fromHexDigit h2 <;> simp [unquoteBytes, e1, e2]
        | some a =>
            cases e2 : fromHexDigit h2 with
            | none => simp [unquoteBytes, e1, e2]
            | some v => exact (e12 a v e1 e2).elim
      rw [hstep] at hy
      rcases List.mem_cons.mp hy with rfl | hy2
      · omega
      · exact ih (fun x hx => hl x (by simp [hx])) y hy2
  | case4 b rest hb ih =>
      intro hl y hy
      by_cases h37 : b = 37
      · subst h37
        cases rest with
        | nil =>
            simp [unquoteBytes] at hy
            omega
        | cons x rest2 =>
            cases rest2 with
            | nil =>
                simp [unquoteBytes] at hy
                rcases hy with rfl | rfl
                · omega
                · exact hl y (by simp)
            | cons x2 rest3 => exact (hb x x2 rest3 rfl rfl).elim
      · rw [unquoteBytes_cons_ne h37] at hy
        rcases List.mem_cons.mp hy with rfl | hy2
        · exact hl y (by simp)
        · exact ih (fun x hx => hl x (by simp [hx])) y hy2

theorem isAlwaysSafe_facts {b : Nat} (h : isAlwaysSafe b = true) :
    b ≠ 43 ∧ b ≠ 37 ∧ b ≠ 38 ∧ b ≠ 61 ∧ b ≠ 32 := by
  simp only [isAlwaysSafe, Bool.or_eq_true, Bool.and_eq_true,
    decide_eq_true_eq] at h
  omega

theorem toHexDigit_facts {n : Nat} (h : n < 16) :
    toHexDigit n ≠ 43 ∧ toHexDigit n ≠ 37 ∧ toHexDigit n ≠ 38 ∧
      toHexDigit n ≠ 61 := by
  unfold toHexDigit
  split_ifs <;> omega

theorem fromHexDigit_toHexDigit {n : Nat} (h : n < 16) :
    fromHexDigit (toHexDigit n) = some n := by
  unfold toHexDigit fromHexDigit
  split_ifs <;> first | omega | (simp only [Option.some.injEq]; omega)

theorem plusToSpace_append (a b : List Nat) :
    plusToSpace (a ++ b) = plusToSpace a ++ plusToSpace b :=
  List.map_append _ a b

theorem unquote_plus_quote_plus : ∀ {s : List Nat}, (∀ b ∈ s, b < 256) →
    unquote_plus (quote_plus s) = s := by
  intro s hs
  induction s with
  | nil => rfl
  | cons b t ih =>
      have hb : b < 256 := hs b (by simp)
      have ht : unquoteBytes (plusToSpace (quote_plus t)) = t :=
        ih fun x hx => hs x (by simp [hx])
      show unquoteBytes (plusToSpace (quote_plus (b :: t))) = b :: t
      have hqp : quote_plus (b :: t) =
          (if isAlwaysSafe b then [b]
           else if b = 32 then [43]
           else [37, toHexDigit (b / 16 % 16), toHexDigit (b % 16)]) ++
            quote_plus t := by
        simp [quote_plus]
      rw [hqp, plusToSpace_append]
      by_cases hsafe : isAlwaysSafe b
      · obtain ⟨h43, h37, -, -, -⟩ := isAlwaysSafe_facts hsafe
        rw [if_pos hsafe]
        rw [show plusToSpace [b] = [b] from by simp [plusToSpace, h43]]
        show unquoteBytes (b :: plusToSpace (quote_plus t)) = b :: t
        rw [unquoteBytes_cons_ne h37, ht]
      · by_cases hsp : b = 32
        · subst hsp
          rw [if_neg hsafe, if_pos rfl]
          rw [show plusToSpace [43] = [32] from rfl]
          show unquoteBytes (32 :: plusToSpace (quote_plus t)) = 32 :: t
          rw [unquoteBytes_cons_ne (by omega), ht]
        · have hhi : b / 16 % 16 < 16 := Nat.mod_lt _ (by omega)
          have hlo : b % 16 < 16 := Nat.mod_lt _ (by omega)
          obtain ⟨hi43, -, -, -⟩ := toHexDigit_facts hhi
          obtain ⟨lo43, -, -, -⟩ := toHexDigit_facts hlo
          rw [if_neg hsafe, if_neg hsp]
          rw [show plusToSpace
              [37, toHexDigit (b / 16 % 16), toHexDigit (b % 16)] =
              [37, toHexDigit (b / 16 % 16), toHexDigit (b % 16)] from by
            simp [plusToSpace, hi43, lo43]]
          show unquoteBytes (37 :: toHexDigit (b / 16 % 16) ::
            toHexDigit (b % 16) :: plusToSpace (quote_plus t)) = b :: t
          rw [unquoteBytes_escape (fromHexDigit_toHexDigit hhi)
            (fromHexDigit_toHexDigit hlo), ht]
          congr 1
          have h16 : b / 16 % 16 = b / 16 := Nat.mod_eq_of_lt (by omega)
          rw [h16]
          omega

theorem quote_plus_facts {s : List Nat} : ∀ x ∈ quote_plus s, x ≠ 38 ∧ x ≠ 61 := by
  intro x hx
  unfold quote_plus at hx
  rw [List.mem_flatMap] at hx
  obtain ⟨b, -, hxin⟩ := hx
  by_cases hsafe : isAlwaysSafe b
  · rw [if_pos hsafe] at hxin
    rw [List.mem_singleton] at hxin
    subst hxin
    obtain ⟨-, -, h38, h61, -⟩ := isAlwaysSafe_facts hsafe
    exact ⟨h38, h61⟩
  · rw [if_neg hsafe] at hxin
    by_cases hsp : b = 32
    · rw [if_pos hsp, List.mem_singleton] at hxin
      omega
    · rw [if_neg hsp] at hxin
      have hhi : b / 16 % 16 < 16 := Nat.mod_lt _ (by omega)
      have hlo : b % 16 < 16 := Nat.mod_lt _ (by omega)
      obtain ⟨-, -, hi38, hi61⟩ := toHexDigit_facts hhi
      obtain ⟨-, -, lo38, lo61⟩ := toHexDigit_facts hlo
      simp only [List.mem_cons, List.not_mem_nil, or_false] at hxin
      rcases hxin with rfl | rfl | rfl
      · omega
      · exact ⟨hi38, hi61⟩
      · exact ⟨lo38, lo61⟩

theorem splitSep_no_sep {sep : Nat} : ∀ {f : List Nat}, sep ∉ f →
    splitSep sep f = [f]
  | [], _ => rfl
  | a :: rest, h => by
      have ha : ¬a = sep := fun hh => h (by simp [hh])
      have hr : sep ∉ rest := fun hh => h (by simp [hh])
      simp [splitSep, ha, splitSep_no_sep hr]

theorem splitSep_append_sep {sep : Nat} : ∀ {f : List Nat}, sep ∉ f →
    ∀ rest : List Nat, splitSep sep (f ++ sep :: rest) = f :: splitSep sep rest
  | [], _, rest => by
      show splitSep sep (sep :: rest) = [] :: splitSep sep rest
      simp [splitSep]
  | a :: f2, h, rest => by
      have ha : ¬a = sep := fun hh => h (by simp [hh])
      have hf : sep ∉ f2 := fun hh => h (by simp [hh])
      show splitSep sep (a :: (f2 ++ sep :: rest)) = (a :: f2) :: splitSep sep rest
      simp [splitSep, ha, splitSep_append_sep hf rest]

theorem joinSep_splitSep {sep : Nat} : ∀ {frags : List (List Nat)},
    frags ≠ [] → (∀ f ∈ frags, sep ∉ f) →
    splitSep sep (joinSep sep frags) = frags
  | [], hne, _ => absurd rfl hne
  | [f], _, hmem => by
      show splitSep sep f = [f]
      exact splitSep_no_sep (hmem f (by simp))
  | f :: g :: t, _, hmem => by
      show splitSep sep (f ++ sep :: joinSep sep (g :: t)) = f :: (g :: t)
      rw [splitSep_append_sep (hmem f (by simp)),
        joinSep_splitSep (by simp) fun x hx => hmem x (by simp [hx])]

theorem splitSep_length_pos {sep : Nat} : ∀ (l : List Nat),
    1 ≤ (splitSep sep l).length
  | [] => by simp [splitSep]
  | a :: rest => by
      by_cases ha : a = sep
      · simp [splitSep, ha]
      · cases hsp : splitSep sep rest with
        | nil => simp [splitSep, ha, hsp]
        | cons p ps => simp [splitSep, ha, hsp]

theorem splitSep_mem_subset {sep : Nat} : ∀ {l f : List Nat},
    f ∈ splitSep sep l → ∀ x ∈ f, x ∈ l
  | [], f, hf, x, hx => by
      simp [splitSep] at hf
      subst hf
      simp at hx
  | a :: rest, f, hf, x, hx => by
      have hstep : splitSep sep (a :: rest) =
          if a = sep then [] :: splitSep sep rest
          else match splitSep sep rest with
            | [] => [[a]]
            | piece :: pieces => (a :: piece) :: pieces := by
        rw [splitSep.eq_def]
      rw [hstep] at hf
      by_cases ha : a = sep
      · rw [if_pos ha] at hf
        rcases List.mem_cons.mp hf with rfl | hf2
        · simp at hx
        · exact List.mem_cons_of_mem a (splitSep_mem_subset hf2 x hx)
      · rw [if_neg ha] at hf
        cases hsp : splitSep sep rest with
        | nil =>
            rw [hsp] at hf
            rcases List.mem_cons.mp hf with rfl | hf2
            · rcases List.mem_cons.mp hx with rfl | hx2
              · simp
              · simp at hx2
            · simp at hf2
        | cons p ps =>
            rw [hsp] at hf
            rcases List.mem_cons.mp hf with rfl | hf2
            · rcases List.mem_cons.mp hx with rfl | hx2
              · simp
              · exact List.mem_cons_of_mem a
                  (splitSep_mem_subset (l := rest) (by rw [hsp]; simp) x hx2)
            · exact List.mem_cons_of_mem a
                (splitSep_mem_subset (l := rest) (by rw [hsp]; simp [hf2]) x hx)

theorem splitOnFirst_append_first {sep : Nat} : ∀ {a : List Nat}, sep ∉ a →
    ∀ b : List Nat, splitOnFirst sep (a ++ sep :: b) = some (a, b)
  | [], _, b => by
      show splitOnFirst sep (sep :: b) = some ([], b)
      simp [splitOnFirst]
  | x :: a2, h, b => by
      have hx : ¬x = sep := fun hh => h (by simp [hh])
      have ha : sep ∉ a2 := fun hh => h (by simp [hh])
      show splitOnFirst sep (x :: (a2 ++ sep :: b)) = some (x :: a2, b)
      simp [splitOnFirst, hx, splitOnFirst_append_first ha b]

theorem parseFrag_encPair {kv : List Nat × List Nat}
    (hk : ∀ b ∈ kv.1, b < 256) (hv : ∀ b ∈ kv.2, b < 256) :
    parseFrag (encPair kv) = some kv := by
  obtain ⟨k, v⟩ := kv
  unfold parseFrag encPair
  have hne : (quote_plus k ++ 61 :: quote_plus v).isEmpty = false := by
    cases hq : quote_plus k <;> simp [hq]
  rw [hne]
  have hsp : splitOnFirst 61 (quote_plus k ++ 61 :: quote_plus v) =
      some (quote_plus k, quote_plus v) :=
    splitOnFirst_append_first (fun hmem => (quote_plus_facts 61 hmem).2 rfl) _
  simp only [Bool.false_eq_true, if_false, hsp, Option.some.injEq,
    Prod.mk.injEq]
  exact ⟨unquote_plus_quote_plus hk, unquote_plus_quote_plus hv⟩

theorem filterMap_eq_self_of {α : Type} {f : α → Option α} :
    ∀ {l : List α}, (∀ x ∈ l, f x = some x) → List.filterMap f l = l
  | [], _ => rfl
  | x :: t, h => by
      rw [List.filterMap_cons, h x (by simp),
        filterMap_eq_self_of fun y hy => h y (by simp [hy])]

namespace MultiValueDict

theorem appendEntry_not_mem {K V : Type} [DecidableEq K] :
    ∀ (es : List (K × List V)) (k : K), (∀ e ∈ es, e.1 ≠ k) → ∀ v : V,
    appendEntry es k v = es ++ [(k, [v])]
  | [], k, _, v => rfl
  | e :: es, k, h, v => by
      have he : e.1 ≠ k := h e (by simp)
      simp [appendEntry, he,
        appendEntry_not_mem es k (fun x hx => h x (by simp [hx])) v]

theorem appendEntry_append_last {K V : Type} [DecidableEq K] :
    ∀ (pre : List (K × List V)) (k : K), (∀ e ∈ pre, e.1 ≠ k) →
    ∀ (acc : List V) (v : V),
    appendEntry (pre ++ [(k, acc)]) k v = pre ++ [(k, acc ++ [v])]
  | [], k, _, acc, v => by simp [appendEntry]
  | e :: pre, k, h, acc, v => by
      have he : e.1 ≠ k := h e (by simp)
      simp [appendEntry, he,
        appendEntry_append_last pre k (fun x hx => h x (by simp [hx])) acc v]

theorem foldl_appendlist_vals {K V : Type} [DecidableEq K]
    {pre : List (K × List V)} {k : K} (h : ∀ e ∈ pre, e.1 ≠ k) :
    ∀ (vs : List V) (acc : List V),
    List.foldl (fun (m : MultiValueDict K V) kv => m.appendlist kv.1 kv.2)
      ⟨pre ++ [(k, acc)]⟩ (vs.map fun v => (k, v)) = ⟨pre ++ [(k, acc ++ vs)]⟩
  | [], acc => by simp
  | v :: vs, acc => by
      rw [List.map_cons, List.foldl_cons]
      show List.foldl _ (appendlist ⟨pre ++ [(k, acc)]⟩ k v) _ = _
      rw [show appendlist (⟨pre ++ [(k, acc)]⟩ : MultiValueDict K V) k v =
          ⟨pre ++ [(k, acc ++ [v])]⟩ from by
        simp [appendlist, appendEntry_append_last pre k h acc v]]
      rw [foldl_appendlist_vals h vs (acc ++ [v])]
      simp

theorem foldl_appendlist_flatPairs :
    ∀ (entries pre : List (List Nat × List (List Nat))),
    ((pre ++ entries).map Prod.fst).Nodup → (∀ e ∈ entries, e.2 ≠ []) →
    List.foldl (fun (m : MultiValueDict (List Nat) (List Nat)) kv =>
        m.appendlist kv.1 kv.2) ⟨pre⟩ (flatPairs entries) = ⟨pre ++ entries⟩
  | [], pre, _, _ => by simp [flatPairs]
  | (k, l) :: rest, pre, hnd, hne => by
      have hkpre : ∀ e ∈ pre, e.1 ≠ k := by
        intro e he hek
        rw [List.map_append] at hnd
        exact List.disjoint_of_nodup_append hnd
          (List.mem_map.mpr ⟨e, he, hek⟩) (by simp)
      obtain ⟨v, vs, rfl⟩ : ∃ v vs, l = v :: vs := by
        cases l with
        | nil => exact absurd rfl (hne (k, []) (by simp))
        | cons v vs => exact ⟨v, vs, rfl⟩
      have hfp : flatPairs ((k, v :: vs) :: rest) =
          ((v :: vs).map fun w => (k, w)) ++ flatPairs rest := by
        simp [flatPairs]
      rw [hfp, List.foldl_append, List.map_cons, List.foldl_cons]
      have h1 : appendlist ⟨pre⟩ k v =
          (⟨pre ++ [(k, [v])]⟩ : MultiValueDict (List Nat) (List Nat)) := by
        simp [appendlist, appendEntry_not_mem pre k hkpre v]
      rw [h1, foldl_appendlist_vals hkpre vs [v]]
      have hrearr : pre ++ [(k, v :: vs)] ++ rest = pre ++ (k, v :: vs) :: rest := by
        simp
      have hrec := foldl_appendlist_flatPairs rest (pre ++ [(k, v :: vs)])
        (by rw [hrearr]; exact hnd) (fun e he => hne e (by simp [he]))
      rw [show ([v] ++ vs : List (List Nat)) = v :: vs from rfl]
      rw [hrec, hrearr]

theorem appendEntry_fst_of_mem {K V : Type} [DecidableEq K] :
    ∀ (es : List (K × List V)) (k : K) (v : V), (∃ e ∈ es, e.1 = k) →
    (appendEntry es k v).map Prod.fst = es.map Prod.fst
  | [], k, v, h => by simp at h
  | e :: es, k, v, h => by
      by_cases he : e.1 = k
      · simp [appendEntry, he]
      · have h2 : ∃ x ∈ es, x.1 = k := by
          obtain ⟨x, hx, hxk⟩ := h
          rcases List.mem_cons.mp hx with rfl | hx2
          · exact absurd hxk he
          · exact ⟨x, hx2, hxk⟩
        simp [appendEntry, he, appendEntry_fst_of_mem es k v h2]

theorem appendEntry_nodup_keys {K V : Type} [DecidableEq K]
    (es : List (K × List V)) (k : K) (v : V)
    (h : (es.map Prod.fst).Nodup) :
    ((appendEntry es k v).map Prod.fst).Nodup := by
  by_cases hmem : ∃ e ∈ es, e.1 = k
  · rw [appendEntry_fst_of_mem es k v hmem]
    exact h
  · push_neg at hmem
    rw [appendEntry_not_mem es k hmem v]
    rw [List.map_append]
    rw [List.nodup_append]
    refine ⟨h, by simp, ?_⟩
    intro a ha hak
    simp at hak
    subst hak
    obtain ⟨e, he, hek⟩ := List.mem_map.mp ha
    exact hmem e he hek

theorem appendEntry_nonempty {K V : Type} [DecidableEq K] :
    ∀ (es : List (K × List V)) (k : K) (v : V), (∀ e ∈ es, e.2 ≠ []) →
    ∀ e ∈ appendEntry es k v, e.2 ≠ []
  | [], k, v, _ => by simp [appendEntry]
  | e :: es, k, v, h => by
      by_cases he : e.1 = k
      · simp only [appendEntry, if_pos he]
        intro x hx
        rcases List.mem_cons.mp hx with rfl | hx2
        · simp
        · exact h x (by simp [hx2])
      · simp only [appendEntry, if_neg he]
        intro x hx
        rcases List.mem_cons.mp hx with rfl | hx2
        · exact h x (by simp)
        · exact appendEntry_nonempty es k v (fun y hy => h y (by simp [hy])) x hx2

theorem appendEntry_bound :
    ∀ (es : List (List Nat × List (List Nat))) (k v : List Nat),
    (∀ e ∈ es, (∀ b ∈ e.1, b < 256) ∧ ∀ w ∈ e.2, ∀ b ∈ w, b < 256) →
    (∀ b ∈ k, b < 256) → (∀ b ∈ v, b < 256) →
    ∀ e ∈ appendEntry es k v,
      (∀ b ∈ e.1, b < 256) ∧ ∀ w ∈ e.2, ∀ b ∈ w, b < 256
  | [], k, v, _, hk, hv => by
      simp only [appendEntry, List.mem_singleton]
      rintro e rfl
      exact ⟨hk, by simpa using hv⟩
  | e :: es, k, v, h, hk, hv => by
      by_cases he : e.1 = k
      · simp only [appendEntry, if_pos he]
        intro x hx
        rcases List.mem_cons.mp hx with rfl | hx2
        · refine ⟨(h e (by simp)).1, ?_⟩
          intro w hw
          rcases List.mem_append.mp hw with hw2 | hw2
          · exact (h e (by simp)).2 w hw2
          · rw [List.mem_singleton] at hw2
            subst hw2
            exact hv
        · exact h x (by simp [hx2])
      · simp only [appendEntry, if_neg he]
        intro x hx
        rcases List.mem_cons.mp hx with rfl | hx2
        · exact h x (by simp)
        · exact appendEntry_bound es k v (fun y hy => h y (by simp [hy]))
            hk hv x hx2

end MultiValueDict

theorem foldl_appendlist_good :
    ∀ (pairs : List (List Nat × List Nat)),
    (∀ kv ∈ pairs, (∀ b ∈ kv.1, b < 256) ∧ (∀ b ∈ kv.2, b < 256)) →
    ∀ (d : List (List Nat × List (List Nat))),
    (d.map Prod.fst).Nodup → (∀ e ∈ d, e.2 ≠ []) →
    (∀ e ∈ d, (∀ b ∈ e.1, b < 256) ∧ ∀ w ∈ e.2, ∀ b ∈ w, b < 256) →
    (((List.foldl (fun (m : MultiValueDict (List Nat) (List Nat)) kv =>
        m.appendlist kv.1 kv.2) ⟨d⟩ pairs).entries.map Prod.fst).Nodup ∧
     (∀ e ∈ (List.foldl (fun (m : MultiValueDict (List Nat) (List Nat)) kv =>
        m.appendlist kv.1 kv.2) ⟨d⟩ pairs).entries, e.2 ≠ []) ∧
     (∀ e ∈ (List.foldl (fun (m : MultiValueDict (List Nat) (List Nat)) kv =>
        m.appendlist kv.1 kv.2) ⟨d⟩ pairs).entries,
       (∀ b ∈ e.1, b < 256) ∧ ∀ w ∈ e.2, ∀ b ∈ w, b < 256))
  | [], _, d, h1, h2, h3 => ⟨h1, h2, h3⟩
  | kv :: pairs, hp, d, h1, h2, h3 => by
      rw [List.foldl_cons]
      have hkv := hp kv (by simp)
      exact foldl_appendlist_good pairs (fun x hx => hp x (by simp [hx]))
        (MultiValueDict.appendEntry d kv.1 kv.2)
        (MultiValueDict.appendEntry_nodup_keys d kv.1 kv.2 h1)
        (MultiValueDict.appendEntry_nonempty d kv.1 kv.2 h2)
        (MultiValueDict.appendEntry_bound d kv.1 kv.2 h3 hkv.1 hkv.2)

theorem flatPairs_appendEntry_length :
    ∀ (es : List (List Nat × List (List Nat))) (k v : List Nat),
    (flatPairs (MultiValueDict.appendEntry es k v)).length =
      (flatPairs es).length + 1
  | [], k, v => by simp [flatPairs, MultiValueDict.appendEntry]
  | e :: es, k, v => by
      by_cases he : e.1 = k
      · simp [flatPairs, MultiValueDict.appendEntry, he]
        omega
      · simp only [flatPairs, MultiValueDict.appendEntry, if_neg he,
          List.flatMap_cons, List.length_append]
        have := flatPairs_appendEntry_length es k v
        simp only [flatPairs] at this
        omega

theorem foldl_flatPairs_length :
    ∀ (pairs : List (List Nat × List Nat))
      (d : List (List Nat × List (List Nat))),
    (flatPairs (List.foldl (fun (m : MultiValueDict (List Nat) (List Nat)) kv =>
        m.appendlist kv.1 kv.2) ⟨d⟩ pairs).entries).length =
      (flatPairs d).length + pairs.length
  | [], d => by simp
  | kv :: pairs, d => by
      rw [List.foldl_cons]
      have := foldl_flatPairs_length pairs
        (MultiValueDict.appendEntry d kv.1 kv.2)
      rw [show (MultiValueDict.appendlist ⟨d⟩ kv.1 kv.2) =
        (⟨MultiValueDict.appendEntry d kv.1 kv.2⟩ :
          MultiValueDict (List Nat) (List Nat)) from rfl]
      rw [this, flatPairs_appendEntry_length]
      simp
      omega

theorem flatPairs_nil_imp :
    ∀ {es : List (List Nat × List (List Nat))}, flatPairs es = [] →
    (∀ e ∈ es, e.2 ≠ []) → es = []
  | [], _, _ => rfl
  | (k, l) :: rest, h, hne => by
      simp only [flatPairs, List.flatMap_cons, List.append_eq_nil] at h
      have : l = [] := by
        cases l with
        | nil => rfl
        | cons v vs => simp at h
      exact absurd this (hne (k, l) (by simp))

theorem plusToSpace_bound {l : List Nat} (h : ∀ x ∈ l, x < 256) :
    ∀ y ∈ plusToSpace l, y < 256 := by
  intro y hy
  obtain ⟨x, hx, rfl⟩ := List.mem_map.mp hy
  by_cases hx43 : x = 43
  · simp [hx43]
  · simpa [hx43] using h x hx

theorem unquote_plus_bound {l : List Nat} (h : ∀ x ∈ l, x < 256) :
    ∀ y ∈ unquote_plus l, y < 256 :=
  unquoteBytes_mem_bound _ (plusToSpace_bound h)

theorem parseFrag_bound {nv : List Nat} {kv : List Nat × List Nat}
    (hnv : ∀ x ∈ nv, x < 256) (h : parseFrag nv = some kv) :
    (∀ b ∈ kv.1, b < 256) ∧ (∀ b ∈ kv.2, b < 256) := by
  unfold parseFrag at h
  by_cases he : nv.isEmpty
  · rw [if_pos he] at h
    cases h
  · rw [if_neg he] at h
    cases hsp : splitOnFirst 61 nv with
    | none =>
        rw [hsp] at h
        cases h
        exact ⟨unquote_plus_bound hnv, by simp⟩
    | some p =>
        rw [hsp] at h
        cases h
        have hnv2 : nv = p.1 ++ 61 :: p.2 := splitOnFirst_eq (by rw [hsp])
        refine ⟨unquote_plus_bound ?_, unquote_plus_bound ?_⟩
        · intro x hx
          exact hnv x (by rw [hnv2]; exact List.mem_append_left _ hx)
        · intro x hx
          exact hnv x (by rw [hnv2]; simp [hx])

theorem mem_flatPairs {kv : List Nat × List Nat}
    {es : List (List Nat × List (List Nat))} (h : kv ∈ flatPairs es) :
    ∃ e ∈ es, kv.1 = e.1 ∧ kv.2 ∈ e.2 := by
  unfold flatPairs at h
  rw [List.mem_flatMap] at h
  obtain ⟨e, he, hkv⟩ := h
  obtain ⟨v, hv, rfl⟩ := List.mem_map.mp hkv
  exact ⟨e, he, rfl, hv⟩

theorem mem_encPair_ne38 {kv : List Nat × List Nat} :
    ∀ x ∈ encPair kv, x ≠ 38 := by
  intro x hx
  unfold encPair at hx
  rcases List.mem_append.mp hx with hx2 | hx2
  · exact (quote_plus_facts x hx2).1
  · rcases List.mem_cons.mp hx2 with rfl | hx3
    · omega
    · exact (quote_plus_facts x hx3).1

theorem urlencode_none_frags :
    ∀ es : List (List Nat × List (List Nat)),
    (es.flatMap fun e => e.2.map fun v =>
      quote_plus e.1 ++ [61] ++ quote_plus v) = (flatPairs es).map encPair
  | [] => rfl
  | e :: es => by
      have ih := urlencode_none_frags es
      simp only [flatPairs] at ih
      simp only [flatPairs, List.flatMap_cons, List.map_append, List.map_map]
      rw [ih]
      congr 1
      simp [encPair, Function.comp_def, List.append_assoc]

theorem urlencode_none_eq (q : QueryDict) :
    q.urlencode none = joinSep 38 ((flatPairs q.mvd.entries).map encPair) := by
  unfold QueryDict.urlencode
  rw [← urlencode_none_frags]

theorem limited_parse_qsl_ok_elim {limit : Nat} {qs : List Nat}
    {pairs : List (List Nat × List Nat)}
    (h : limited_parse_qsl limit qs = .ok pairs) :
    pairs = (splitSep 38 qs).filterMap parseFrag ∧
    ¬(0 < limit ∧ (splitSep 38 qs).length > limit) := by
  simp only [limited_parse_qsl] at h
  by_cases hc : 0 < limit ∧ (splitSep 38 qs).length > limit
  · rw [if_pos hc] at h
    cases h
  · rw [if_neg hc] at h
    exact ⟨(Except.ok.inj h).symm, hc⟩

/-- C8: parse–serialize–parse is the identity: for every byte-level query
string, if `QueryDict(qs)` succeeds then re-parsing its `urlencode()`
output yields exactly the same multimap (same keys, same per-key ordered
value lists — here literally the same `QueryDict`). -/
theorem c8_querydict_urlencode_roundtrip (fieldsLimit : Nat) (qs : List Nat)
    (hqs : ∀ b ∈ qs, b < 256) (q : QueryDict)
    (hq : QueryDict.ofQueryString fieldsLimit qs false = .ok q) :
    QueryDict.ofQueryString fieldsLimit
      (q.urlencode none) false = .ok q := by
  cases hlp : limited_parse_qsl fieldsLimit qs with
  | error e =>
      unfold QueryDict.ofQueryString at hq
      rw [hlp] at hq
      simp [Bind.bind, Except.bind] at hq
  | ok pairs =>
  unfold QueryDict.ofQueryString at hq
  rw [hlp] at hq
  simp only [Bind.bind, Except.bind, Except.ok.injEq, bytes_to_text,
    MultiValueDict.empty] at hq
  obtain ⟨hpe, hlim⟩ := limited_parse_qsl_ok_elim hlp
  subst hpe
  subst hq
  have hpb : ∀ kv ∈ (splitSep 38 qs).filterMap parseFrag,
      (∀ b ∈ kv.1, b < 256) ∧ (∀ b ∈ kv.2, b < 256) := by
    intro kv hkv
    obtain ⟨nv, hnv, hpf⟩ := List.mem_filterMap.mp hkv
    exact parseFrag_bound (fun x hx => hqs x (splitSep_mem_subset hnv x hx)) hpf
  have hgood := foldl_appendlist_good ((splitSep 38 qs).filterMap parseFrag)
    hpb [] (by simp) (by simp) (by simp)
  have hlen := foldl_flatPairs_length ((splitSep 38 qs).filterMap parseFrag) []
  have hplen : ((splitSep 38 qs).filterMap parseFrag).length ≤
      (splitSep 38 qs).length := List.length_filterMap_le _ _
  have hppos : 1 ≤ (splitSep 38 qs).length := splitSep_length_pos qs
  set E := (List.foldl (fun (m : MultiValueDict (List Nat) (List Nat)) kv =>
    m.appendlist kv.1 kv.2) ⟨[]⟩
    ((splitSep 38 qs).filterMap parseFrag)).entries with hEdef
  have hurl : QueryDict.urlencode
      ⟨(List.foldl (fun (m : MultiValueDict (List Nat) (List Nat)) kv =>
        m.appendlist kv.1 kv.2) ⟨[]⟩ ((splitSep 38 qs).filterMap parseFrag)),
        false⟩ none = joinSep 38 ((flatPairs E).map encPair) := by
    rw [urlencode_none_eq]
  rw [hurl]
  have hlen2 : (flatPairs E).length =
      ((splitSep 38 qs).filterMap parseFrag).length := by
    rw [show flatPairs ([] : List (List Nat × List (List Nat))) = [] from rfl]
      at hlen
    simpa using hlen
  by_cases hfpn : flatPairs E = []
  case pos =>
      have hE : E = [] := flatPairs_nil_imp hfpn hgood.2.1
      rw [hfpn]
      unfold QueryDict.ofQueryString
      have hlp2 : limited_parse_qsl fieldsLimit (joinSep 38 []) = .ok [] := by
        simp only [limited_parse_qsl, joinSep, splitSep]
        rw [if_neg (by simp; omega)]
        rfl
      rw [show List.map encPair ([] : List (List Nat × List Nat)) = [] from rfl]
      rw [hlp2]
      simp only [Bind.bind, Except.bind, Except.ok.injEq]
      have heta : (⟨E⟩ : MultiValueDict (List Nat) (List Nat)) =
          List.foldl (fun (m : MultiValueDict (List Nat) (List Nat)) kv =>
            m.appendlist kv.1 kv.2) ⟨[]⟩
            ((splitSep 38 qs).filterMap parseFrag) := by
        rw [hEdef]
      rw [← heta, hE]
      rfl
  case neg =>
      have hfrags_ne : (flatPairs E).map encPair ≠ [] := by
        simpa using hfpn
      have hfragsno38 : ∀ f ∈ (flatPairs E).map encPair, 38 ∉ f := by
        intro f hf hmem
        obtain ⟨kv, -, rfl⟩ := List.mem_map.mp hf
        exact mem_encPair_ne38 38 hmem rfl
      have hsplit : splitSep 38 (joinSep 38 ((flatPairs E).map encPair)) =
          (flatPairs E).map encPair :=
        joinSep_splitSep hfrags_ne hfragsno38
      have hpoint : ∀ kv ∈ flatPairs E, parseFrag (encPair kv) = some kv := by
        intro kv hkv
        obtain ⟨e, he, hk1, hk2⟩ := mem_flatPairs hkv
        have hb := hgood.2.2 e he
        exact parseFrag_encPair (by rw [hk1]; exact hb.1) (hb.2 kv.2 hk2)
      have hlp2 : limited_parse_qsl fieldsLimit
          (joinSep 38 ((flatPairs E).map encPair)) = .ok (flatPairs E) := by
        simp only [limited_parse_qsl]
        rw [hsplit]
        rw [if_neg (by
          rw [List.length_map]
          omega)]
        rw [List.filterMap_map]
        rw [filterMap_eq_self_of (f := parseFrag ∘ encPair) hpoint]
      unfold QueryDict.ofQueryString
      rw [hlp2]
      simp only [Bind.bind, Except.bind, Except.ok.injEq, bytes_to_text,
        MultiValueDict.empty]
      have hfold := MultiValueDict.foldl_appendlist_flatPairs E []
        (by simpa using hgood.1) hgood.2.1
      rw [hfold]
      simp [hEdef]

/-- C8 (witness): the round trip evaluated on the concrete query string
`a=1&a=2&b` (with a repeated key and a blank value). -/
theorem c8_querydict_urlencode_roundtrip_witness :
    QueryDict.ofQueryString 1000
      ((⟨⟨[(bytesOf "a", [bytesOf "1", bytesOf "2"]), (bytesOf "b", [[]])]⟩,
        false⟩ : QueryDict).urlencode none) false =
      .ok ⟨⟨[(bytesOf "a", [bytesOf "1", bytesOf "2"]), (bytesOf "b", [[]])]⟩,
        false⟩ :=
  c8_querydict_urlencode_roundtrip 1000 (bytesOf "a=1&a=2&b") (by decide)
    ⟨⟨[(bytesOf "a", [bytesOf "1", bytesOf "2"]), (bytesOf "b", [[]])]⟩, false⟩
    (by decide)
